import Mathlib

/-!
Verification development for the BORME (Spanish commercial-registry bulletin)
entity-extraction engine of the mapasocietario repository.

The JavaScript sources are shallowly embedded over `List Char`:
- `src/utils/spanishCompanyParserWithTerms.js` (the parser singleton), and
- the officers temporal resolver and name matcher of the companies service
  (source file with unknown name, `part_000`).

JavaScript strings are modelled as `List Char`; the handful of regular
expressions the parser uses are modelled by a small backtracking matcher
(`RItem`) whose candidate order reproduces the leftmost / greedy /
first-alternative semantics of the JavaScript engine for exactly the shapes
of pattern the source contains (literals, ordered alternations of literals,
character classes, bounded greedy repetition, word boundaries).

The only mutable state of the engine is the `lastIndex` property of the
shared global-flag regex `this.registryPattern`; it is threaded explicitly
as a `Nat` through every function that calls `registryPattern.test`.
-/

set_option maxRecDepth 4096

namespace Borme

/-- JavaScript strings are modelled as lists of characters. -/
abbrev Str := List Char

/-- Shorthand turning a Lean string literal into the `Str` model. -/
def str (s : String) : Str := s.data

/-- Word character for the JavaScript `\b` assertion and `\w` class:
`[A-Za-z0-9_]` (accented letters are not word characters without the
unicode flag, faithful to the source which uses no `u` flag). -/
def isWordChar (c : Char) : Bool :=
  (('A' ≤ c && c ≤ 'Z') || ('a' ≤ c && c ≤ 'z') || ('0' ≤ c && c ≤ '9') || c == '_')

/-- JavaScript `\s`: whitespace characters (the code points that occur in
bulletin text: space, tab, newline, carriage return, form feed, vertical
tab, no-break space). -/
def isJsWs (c : Char) : Bool :=
  (c == ' ' || c == '\t' || c == '\n' || c == '\r' ||
   c == '\x0b' || c == '\x0c' || c == ' ')

/-- Decimal digit, JavaScript `\d`. -/
def isDigitChar (c : Char) : Bool := ('0' ≤ c && c ≤ '9')

/-- ASCII uppercase `[A-Z]`. -/
def isUpperAZ (c : Char) : Bool := ('A' ≤ c && c ≤ 'Z')

/-- JavaScript `toUpperCase` restricted to the alphabet appearing in the
sources: ASCII letters plus the Spanish accented vowels, `ñ` and `ü`. -/
def jsUpper (c : Char) : Char :=
  if 'a' ≤ c && c ≤ 'z' then Char.ofNat (c.toNat - 32)
  else if c == 'á' then 'Á' else if c == 'é' then 'É'
  else if c == 'í' then 'Í' else if c == 'ó' then 'Ó'
  else if c == 'ú' then 'Ú' else if c == 'ñ' then 'Ñ'
  else if c == 'ü' then 'Ü' else c

/-- JavaScript `toLowerCase` restricted to the same alphabet. -/
def jsLower (c : Char) : Char :=
  if 'A' ≤ c && c ≤ 'Z' then Char.ofNat (c.toNat + 32)
  else if c == 'Á' then 'á' else if c == 'É' then 'é'
  else if c == 'Í' then 'í' else if c == 'Ó' then 'ó'
  else if c == 'Ú' then 'ú' else if c == 'Ñ' then 'ñ'
  else if c == 'Ü' then 'ü' else c

/-- Case-insensitive character comparison, as JavaScript `i`-flag
canonicalisation does for this alphabet. -/
def ciEqChar (c d : Char) : Bool := jsUpper c == jsUpper d

/-- Uppercase a whole modelled string. -/
def upperStr (s : Str) : Str := s.map jsUpper

/-- Lowercase a whole modelled string. -/
def lowerStr (s : Str) : Str := s.map jsLower

/-- JavaScript `String.prototype.trim`. -/
def trimJs (s : Str) : Str :=
  ((s.dropWhile isJsWs).reverse.dropWhile isJsWs).reverse

/-- Case-sensitive prefix test. -/
def startsWith (needle s : Str) : Bool :=
  s.take needle.length == needle

/-- Case-insensitive prefix test. -/
def ciStartsWith (needle s : Str) : Bool :=
  needle.length ≤ s.length &&
    (List.zip needle (s.take needle.length)).all (fun p => ciEqChar p.1 p.2)

/-- Case-sensitive substring containment, JavaScript `includes`. -/
def containsStr (s needle : Str) : Bool :=
  match s with
  | [] => needle.isEmpty
  | _ :: tl => startsWith needle s || containsStr tl needle

/-- Case-insensitive substring containment (used to model `i`-flag
regex tests whose pattern is an escaped literal). -/
def ciContains (s needle : Str) : Bool :=
  match s with
  | [] => needle.isEmpty
  | _ :: tl => ciStartsWith needle s || ciContains tl needle

/-- Index of the first case-insensitive occurrence of `needle`. -/
def ciIndexOf (s needle : Str) : Option Nat :=
  match s with
  | [] => if needle.isEmpty then some 0 else none
  | _ :: tl =>
    if ciStartsWith needle s then some 0
    else (ciIndexOf tl needle).map (· + 1)

/-- JavaScript `String.prototype.indexOf` for a single character,
`-1` modelled as `none`. -/
def indexOfChar (s : Str) (c : Char) : Option Nat :=
  match s with
  | [] => none
  | d :: tl => if d == c then some 0 else (indexOfChar tl c).map (· + 1)

/-- Split at every character satisfying `p`, keeping empty pieces —
JavaScript `split` with a single-character class regex such as
`/[.\n\r]/` or `/[;,]/`. -/
def splitAny (p : Char → Bool) : Str → List Str
  | [] => [[]]
  | c :: cs =>
    let r := splitAny p cs
    if p c then [] :: r
    else
      match r with
      | x :: xs => (c :: x) :: xs
      | [] => [[c]]

/-- Dropping a prefix never lengthens a list (termination helper). -/
theorem dropWhile_length_le (p : α → Bool) (l : List α) :
    (l.dropWhile p).length ≤ l.length := by
  induction l with
  | nil => simp [List.dropWhile]
  | cons c cs ih =>
    by_cases h : p c
    · simpa [List.dropWhile, h] using Nat.le_succ_of_le ih
    · simp [List.dropWhile, h]

/-- Worker for `splitWsPlus`: `inRun` records whether the previous
character belonged to the current whitespace delimiter run. -/
def splitWsPlusGo (inRun : Bool) : Str → List Str
  | [] => [[]]
  | c :: cs =>
    if isJsWs c then
      if inRun then splitWsPlusGo true cs
      else [] :: splitWsPlusGo true cs
    else
      match splitWsPlusGo false cs with
      | x :: xs => (c :: x) :: xs
      | [] => [[c]]

/-- Split on maximal nonempty whitespace runs, keeping empty edge pieces —
JavaScript `split(/\s+/)`. -/
def splitWsPlus (s : Str) : List Str := splitWsPlusGo false s

/-- Worker for `collapseWs`: `inRun` records whether the previous
character belonged to an already-replaced whitespace run. -/
def collapseWsGo (inRun : Bool) : Str → Str
  | [] => []
  | c :: cs =>
    if isJsWs c then
      if inRun then collapseWsGo true cs
      else ' ' :: collapseWsGo true cs
    else c :: collapseWsGo false cs

/-- Collapse every whitespace run to a single space — the global replace
`replace(/\s+/g, ' ')`. -/
def collapseWs (s : Str) : Str := collapseWsGo false s

/-- Replace the first (case-sensitive) occurrence of `needle` by `repl` —
JavaScript `String.prototype.replace` with a plain string pattern. -/
def replaceFirst (s needle repl : Str) : Str :=
  match s with
  | [] => []
  | c :: cs =>
    if startsWith needle s && !needle.isEmpty then
      repl ++ s.drop needle.length
    else
      c :: replaceFirst cs needle repl

/-! ## A small backtracking matcher for the regexes of the source

Only the constructs that actually occur in the JavaScript patterns are
modelled. Candidate order reproduces the engine: alternatives are tried in
written order, repetitions are greedy (longest candidate first), and the
first full-sequence success wins. -/

/-- One element of a regex sequence. -/
inductive RItem where
  /-- A literal string, optionally case-insensitive. -/
  | lit (ci : Bool) (s : Str)
  /-- An ordered alternation of literal strings, e.g. `(ADM|ADMIN|...)`. -/
  | alts (ci : Bool) (xs : List Str)
  /-- A single character from a class. -/
  | cls (p : Char → Bool)
  /-- Greedy repetition of a character class, at least `lo` times and at
  most `hi` (`none` for unbounded), e.g. `\d{1,2}`, `\s+`, `[^.]*`. -/
  | rep (p : Char → Bool) (lo : Nat) (hi : Option Nat)
  /-- Greedy repetition of the fixed-shape group `(sep ppp)` where every
  block is `sep` followed by exactly `cnt` characters of the class —
  models `(?:\.\d{3})*` of the decimal-number pattern. -/
  | blocks (sep : Char) (p : Char → Bool) (cnt : Nat)
  /-- The word-boundary assertion `\b`. -/
  | wb

/-- Is the boundary between `prev` and the head of `s` a `\b` boundary? -/
def atWordBoundary (prev : Option Char) (s : Str) : Bool :=
  let before := match prev with | none => false | some c => isWordChar c
  let after := match s.head? with | none => false | some c => isWordChar c
  before != after

/-- Case-sensitive or -insensitive literal prefix check returning the
consumed characters (the original text, not the pattern). -/
def litTake (ci : Bool) (needle s : Str) : Option (Str × Str) :=
  if (if ci then ciStartsWith needle s else startsWith needle s) then
    some (s.take needle.length, s.drop needle.length)
  else none

/-- Length of the maximal prefix of `s` inside class `p`. -/
def maxRun (p : Char → Bool) (s : Str) : Nat :=
  (s.takeWhile p).length

/-- Greedy candidate consumption lengths for `rep p lo hi`: from the
longest possible down to `lo`. -/
def repCandidates (p : Char → Bool) (lo : Nat) (hi : Option Nat) (s : Str) :
    List Nat :=
  let m := maxRun p s
  let m := match hi with | none => m | some h => min m h
  if m < lo then [] else (List.range (m - lo + 1)).map (fun k => m - k)

/-- Fuel-bounded worker for `maxBlocks` (each block consumes at least
one character, so fuel equal to the length suffices). -/
def maxBlocksF (sep : Char) (p : Char → Bool) (cnt : Nat) :
    Nat → Str → Nat
  | 0, _ => 0
  | _, [] => 0
  | fuel + 1, c :: cs =>
    if c == sep && (cs.take cnt).length == cnt && (cs.take cnt).all p then
      maxBlocksF sep p cnt fuel (cs.drop cnt) + 1
    else 0

/-- How many leading `(sep ppp)` blocks the text has. -/
def maxBlocks (sep : Char) (p : Char → Bool) (cnt : Nat) (s : Str) : Nat :=
  maxBlocksF sep p cnt (s.length + 1) s

/-- All candidate `(consumed, rest)` splits for one item, in the order the
JavaScript engine would try them. -/
def itemCandidates (it : RItem) (prev : Option Char) (s : Str) :
    List (Str × Str) :=
  match it with
  | .lit ci needle => (litTake ci needle s).toList
  | .alts ci xs => xs.filterMap (fun needle => litTake ci needle s)
  | .cls p =>
    match s with
    | c :: cs => if p c then [([c], cs)] else []
    | [] => []
  | .rep p lo hi =>
    (repCandidates p lo hi s).map (fun k => (s.take k, s.drop k))
  | .blocks sep p cnt =>
    let m := maxBlocks sep p cnt s
    (List.range (m + 1)).map (fun k =>
      let n := (m - k) * (cnt + 1)
      (s.take n, s.drop n))
  | .wb => if atWordBoundary prev s then [([], s)] else []

/-- The previous character after consuming `c`, for later `\b` checks. -/
def nextPrev (prev : Option Char) (c : Str) : Option Char :=
  match c.getLast? with
  | some x => some x
  | none => prev

/-- Backtracking sequence matcher: returns the consumed text and the rest,
trying candidates in engine order. -/
def matchItems : List RItem → Option Char → Str → Option (Str × Str)
  | [], _, s => some ([], s)
  | it :: rest, prev, s =>
    (itemCandidates it prev s).findSome? (fun cand =>
      (matchItems rest (nextPrev prev cand.1) cand.2).map
        (fun r => (cand.1 ++ r.1, r.2)))

/-- Scan for the leftmost match of a sequence: returns
`(text before, matched, rest)`. -/
def scanMatch (items : List RItem) : Option Char → Str → Option (Str × Str × Str)
  | prev, [] =>
    (matchItems items prev []).map (fun r => ([], r.1, r.2))
  | prev, c :: cs =>
    match matchItems items prev (c :: cs) with
    | some r => some ([], r.1, r.2)
    | none => (scanMatch items (some c) cs).map (fun r => (c :: r.1, r.2.1, r.2.2))

/-- Does the pattern match anywhere (a non-global `test`)? -/
def testAnywhere (items : List RItem) (s : Str) : Bool :=
  (scanMatch items none s).isSome

/-! ## The Lexical Guard (`smartSplitBormeEntry`) -/

/-- The Spanish abbreviations protected by the period-splitting guard
(source list, in order, line 1744). -/
def guardAbbreviations : List Str :=
  [str "ADM", str "ADMIN", str "APOD", str "APODER", str "CONS", str "CONSJ",
   str "CONSEJERO", str "PRES", str "PRESID", str "PRESIDENT", str "SEC",
   str "SECR", str "SECRETARIO", str "TES", str "TESOR", str "TESORERO",
   str "VICE", str "VICEPR", str "VICEPRES", str "DIR", str "DTOR",
   str "DIRECTOR", str "GER", str "GERENTE", str "LIQ", str "LIQUID",
   str "MANCOM", str "MANCO", str "SOLID", str "SOLIDA", str "SOLIDAR",
   str "UNICO", str "ÚNICO"]

/-- Pattern 1 of the guard: `\b(ABBREV|...)\.( *)` with the `i` flag. -/
def abbrevItems : List RItem :=
  [.wb, .alts true guardAbbreviations, .lit false (str "."),
   .rep (· == ' ') 0 none]

/-- Pattern 2 of the guard: dates `\b\d{1,2}\.\d{1,2}\.\d{2,4}\b`. -/
def dateItems : List RItem :=
  [.wb, .rep isDigitChar 1 (some 2), .lit false (str "."),
   .rep isDigitChar 1 (some 2), .lit false (str "."),
   .rep isDigitChar 2 (some 4), .wb]

/-- Pattern 3 of the guard: registry data
`[ST]\s+\d+\s*,\s*[LFH]\s+[A-Z]*\s*\d+[^.]*\([^)]*\)\.` (case-sensitive). -/
def registryGuardItems : List RItem :=
  [.cls (fun c => c == 'S' || c == 'T'), .rep isJsWs 1 none,
   .rep isDigitChar 1 none, .rep isJsWs 0 none, .lit false (str ","),
   .rep isJsWs 0 none, .cls (fun c => c == 'L' || c == 'F' || c == 'H'),
   .rep isJsWs 1 none, .rep isUpperAZ 0 none, .rep isJsWs 0 none,
   .rep isDigitChar 1 none, .rep (· != '.') 0 none, .lit false (str "("),
   .rep (· != ')') 0 none, .lit false (str ")"), .lit false (str ".")]

/-- Pattern 4 of the guard: decimal numbers `\b\d{1,3}(?:\.\d{3})*,\d{2}\b`. -/
def decimalItems : List RItem :=
  [.wb, .rep isDigitChar 1 (some 3), .blocks '.' isDigitChar 3,
   .lit false (str ","), .rep isDigitChar 2 (some 2), .wb]

/-- The placeholder token `###PLACEHOLDER<n>###`. -/
def placeholderStr (n : Nat) : Str :=
  str "###PLACEHOLDER" ++ (Nat.toDigits 10 n).map id ++ str "###"

/-- One global protect pass: every match of the pattern is replaced by the
next placeholder and its text is appended to the placeholder table.
Matching continues after the matched text over the original string, as a
JavaScript global `replace` does. `fuel` bounds the recursion; it is
initialised to more than the text length, and every step consumes at least
one character of the text, so the zero-fuel case is unreachable. -/
def protectGo (items : List RItem) (fuel : Nat) (prev : Option Char)
    (s : Str) (table : List Str) : Str × List Str :=
  match fuel with
  | 0 => (s, table)
  | fuel + 1 =>
    match s with
    | [] => ([], table)
    | c :: cs =>
      match matchItems items prev (c :: cs) with
      | some (m, rest) =>
        if m.isEmpty then
          let r := protectGo items fuel (some c) cs table
          (c :: r.1, r.2)
        else
          let r := protectGo items fuel (nextPrev prev m) rest (table ++ [m])
          (placeholderStr table.length ++ r.1, r.2)
      | none =>
        let r := protectGo items fuel (some c) cs table
        (c :: r.1, r.2)

/-- Run one protect pass over a whole string. -/
def protectPass (items : List RItem) (s : Str) (table : List Str) :
    Str × List Str :=
  protectGo items (s.length + 1) none s table

/-- Restore every placeholder in a section: the source iterates the
placeholder table in index order and replaces the first occurrence of each
placeholder token (`placeholders.forEach(...)`, line 1830). -/
def restorePlaceholders (table : List Str) (s : Str) : Str :=
  (table.enum).foldl
    (fun acc p => replaceFirst acc (placeholderStr p.1) p.2) s

/-- Smart splitting of BORME entries (`smartSplitBormeEntry`, line 1742):
protect abbreviations, then dates, then registry data, then decimal
numbers; split the guarded text on periods; trim each piece, restore the
placeholders, and drop empty pieces. -/
def smartSplitBormeEntry (fullEntry : Str) : List Str :=
  let r1 := protectPass abbrevItems fullEntry []
  let r2 := protectPass dateItems r1.1 r1.2
  let r3 := protectPass registryGuardItems r2.1 r2.2
  let r4 := protectPass decimalItems r3.1 r3.2
  ((splitAny (· == '.') r4.1).map
    (fun s => restorePlaceholders r4.2 (trimJs s))).filter
      (fun s => !s.isEmpty)

/-! ## The vocabulary table -/

/-- The vocabulary table shape of `terms.json`: canonical top-level
category names and canonical officer-position names. All extraction
functions take it as a parameter, mirroring `this.terms`. -/
structure Terms where
  /-- Top-level category names (`alwaysTopLevel`). -/
  alwaysTopLevel : List Str
  /-- Canonical officer-position names (`officersPositions`). -/
  officersPositions : List Str

/-- Modelled from the spec: the contents of `src/data/terms.json` (the
vocabulary table) are not in the source tree; the table is loaded at
startup and never mutated. The spec names the closed top-level category
vocabulary (officer categories Nombramientos / Reelecciones /
Ceses-Dimisiones / Revocaciones; non-officer categories Constitución,
Disolución, Extinción, capital changes, registered-office and name
changes, Declaración de unipersonalidad, Datos registrales, bankruptcy
and suspension states) and the canonical officer positions
(administrator variants, liquidator, president, secretary, board member,
manager, director, proxy holder, sole shareholder). -/
def termsJson : Terms where
  alwaysTopLevel :=
    [str "Nombramientos", str "Reelecciones", str "Ceses/Dimisiones",
     str "Revocaciones", str "Constitución", str "Disolución",
     str "Extinción", str "Ampliación de capital",
     str "Reducción de capital", str "Cambio de domicilio social",
     str "Cambio de denominación social",
     str "Declaración de unipersonalidad", str "Datos registrales",
     str "Quiebra", str "Suspensión de pagos", str "Situación concursal",
     str "Otros conceptos"]
  officersPositions :=
    [str "Administrador", str "Administrador Único",
     str "Administrador Solidario", str "Administrador Mancomunado",
     str "Liquidador", str "Presidente", str "Secretario",
     str "Consejero", str "Gerente", str "Director", str "Apoderado",
     str "Socio Único"]

/-! ## The shared global-flag registry regex

`this.registryPattern` (line 9) is the one regex object shared across
parse calls; because it carries the `g` flag, `test()` starts matching at
its `lastIndex` property, advances it past a successful match, and resets
it to zero on failure, while `String.prototype.match` resets it to zero
before and after collecting all matches (ES2023 `RegExp.prototype
[Symbol.match]`). The `lastIndex` is the `Nat` threaded below. -/

/-- The registry-reference pattern of line 9:
`\b[ST]\s+\d+\s*,\s*[LFH]\s+[A-Z]*\s*\d+\s*,?\s*[SF]?\s*\d*\s*,?\s*H?\s*[A-Z]*\s*\d*\s*,?\s*I\/A\s+\d+\s*\([^)]+\)\.` -/
def registryItems : List RItem :=
  [.wb, .cls (fun c => c == 'S' || c == 'T'), .rep isJsWs 1 none,
   .rep isDigitChar 1 none, .rep isJsWs 0 none, .rep (· == ',') 0 (some 1),
   .rep isJsWs 0 none, .rep (fun c => c == 'S' || c == 'F') 0 (some 1),
   .rep isJsWs 0 none, .rep isDigitChar 0 none, .rep isJsWs 0 none,
   .rep (· == ',') 0 (some 1), .rep isJsWs 0 none,
   .rep (· == 'H') 0 (some 1), .rep isJsWs 0 none, .rep isUpperAZ 0 none,
   .rep isJsWs 0 none, .rep isDigitChar 0 none, .rep isJsWs 0 none,
   .rep (· == ',') 0 (some 1), .rep isJsWs 0 none, .lit false (str "I/A"),
   .rep isJsWs 1 none, .rep isDigitChar 1 none, .rep isJsWs 0 none,
   .lit false (str "("), .rep (· != ')') 1 none, .lit false (str ")"),
   .lit false (str ".")]

/-- Leftmost match of the registry pattern at or after position `i`:
returns the end position of the match. The `\b` assertion at position `i`
sees the character `i - 1` of the string. -/
def registryMatchFrom (s : Str) (i : Nat) : Option (Str × Nat) :=
  let prev := if i == 0 then none else (s.take i).getLast?
  (scanMatch registryItems prev (s.drop i)).map
    (fun r => (r.2.1, i + r.1.length + r.2.1.length))

/-- `this.registryPattern.test(s)` with the global flag: matching starts
at `lastIndex`; on success `lastIndex` moves past the match, on failure
(or when `lastIndex` exceeds the string) it resets to zero. -/
def registryTestS (s : Str) (lastIndexIn : Nat) : Bool × Nat :=
  if s.length < lastIndexIn then (false, 0)
  else
    match registryMatchFrom s lastIndexIn with
    | some r => (true, r.2)
    | none => (false, 0)

/-- `fullEntry.match(this.registryPattern)`: with the global flag the
`lastIndex` is reset to zero before matching and is zero afterwards; the
source keeps `registryMatch[0]`, the first match. The result is therefore
independent of the incoming `lastIndex`, which is why two parses of the
same entry behave identically. -/
def registryMatchAll (s : Str) (_lastIndexIn : Nat) : Option Str × Nat :=
  ((registryMatchFrom s 0).map (fun r => r.1), 0)

/-! ## End-of-string assertion for anchored patterns -/

/-- Extend the matcher with an explicit end-of-input assertion so that
`$`-anchored patterns backtrack correctly: appending `eosItem` style
checks is modelled by requiring the rest to be empty. -/
def matchItemsEnd (items : List RItem) (prev : Option Char) (s : Str) :
    Option Str :=
  match matchAllWays items prev s with
  | [] => none
  | r => (r.find? (fun c => c.2.isEmpty)).map (·.1)
where
  /-- All candidate `(consumed, rest)` results of the sequence, in engine
  order; the `$` anchor picks the first that consumed everything. -/
  matchAllWays : List RItem → Option Char → Str → List (Str × Str)
  | [], _, s => [([], s)]
  | it :: rest, prev, s =>
    (itemCandidates it prev s).flatMap (fun cand =>
      (matchAllWays rest (nextPrev prev cand.1) cand.2).map
        (fun r => (cand.1 ++ r.1, r.2)))

/-- Leftmost position whose suffix fully matches an `$`-anchored pattern:
models `replace` with a regex of the form `...$` by cutting there. -/
def cutEndPattern (items : List RItem) (s : Str) : Str :=
  go s 0
where
  /-- Try every start position from the left. -/
  go : Str → Nat → Str
  | t, i =>
    match matchItemsEnd items (if i == 0 then none else (s.take i).getLast?) t with
    | some _ => s.take i
    | none =>
      match t with
      | [] => s
      | _ :: tl => go tl (i + 1)

/-! ## Business-text and name validation filters -/

/-- Business-activity keywords (`isBusinessActivityDescription`,
line 702). -/
def businessKeywords : List Str :=
  [str "cnae", str "actividad", str "objeto social", str "industria",
   str "comercio", str "servicios", str "representación", str "gestión",
   str "asesoramiento", str "explotación", str "venta",
   str "distribución", str "fabricación", str "producción",
   str "construcción", str "hostelería", str "restaurante", str "hotel",
   str "turismo", str "inmobiliaria", str "consultoría",
   str "ingeniería", str "tecnología", str "software",
   str "informática", str "telecomunicaciones", str "transporte",
   str "logística", str "almacenamiento", str "importación",
   str "exportación", str "mayorista", str "minorista",
   str "intermediarios", str "corretaje", str "mediación",
   str "artículo", str "estatutos", str "modificación",
   str "ampliación", str "reducción"]

/-- The CNAE-code pattern `/cnae\s*\d+/i`. -/
def cnaeItems : List RItem :=
  [.lit true (str "cnae"), .rep isJsWs 0 none, .rep isDigitChar 1 none]

/-- The four business-description patterns of line 756, flattened into
one sequence per top-level alternative (a position matches the original
alternation if and only if it matches one of the alternatives). -/
def businessPatternAlternatives : List (List RItem) :=
  [[.wb, .alts true [str "la", str "el", str "los", str "las"],
    .rep isJsWs 1 none,
    .alts true [str "industria", str "comercio", str "venta",
      str "distribución", str "fabricación"]],
   [.wb, .lit true (str "toda"), .rep isJsWs 1 none,
    .lit true (str "clase"), .rep isJsWs 1 none, .lit true (str "de")],
   [.wb, .lit true (str "sin"), .rep isJsWs 1 none,
    .lit true (str "excepción")],
   [.wb, .lit true (str "sin"), .rep isJsWs 1 none,
    .lit true (str "limitación")],
   [.wb, .alts true [str "actividades", str "operaciones",
      str "servicios", str "productos"], .wb],
   [.wb, .lit true (str "por"), .rep isJsWs 1 none,
    .lit true (str "cuenta"), .rep isJsWs 1 none,
    .lit true (str "propia"), .wb],
   [.wb, .lit true (str "de"), .rep isJsWs 1 none,
    .lit true (str "terceros"), .wb]]

/-- `isBusinessActivityDescription` (line 696): keyword containment on the
lowercased text, a CNAE-code pattern, length over 100, or one of the
business description patterns. -/
def isBusinessActivityDescription (text : Str) : Bool :=
  if text.isEmpty then false
  else
    let lowerText := lowerStr text
    businessKeywords.any (fun k => containsStr lowerText k) ||
    testAnywhere cnaeItems text ||
    decide (text.length > 100) ||
    businessPatternAlternatives.any (fun its => testAnywhere its text)

/-- The rejected-character class of `isValidSpanishName` (line 783):
`[\d@#$%^&*()_+=[\]{}|\\:";'<>?,./]`. The brace, backslash, quote and
apostrophe characters are spelled by code point. -/
def isBadNameChar (c : Char) : Bool :=
  isDigitChar c ||
  (str "@#$%^&*()_+=[]|:;<>?,./").contains c ||
  c == Char.ofNat 123 || c == Char.ofNat 125 || c == Char.ofNat 92 ||
  c == Char.ofNat 34 || c == Char.ofNat 39

/-- The capital-letter class of line 814: `[A-ZÁÉÍÓÚÑ]`. -/
def isCapSpanish (c : Char) : Bool :=
  isUpperAZ c || (str "ÁÉÍÓÚÑ").contains c

/-- The business words rejected inside names (line 801). -/
def nameBusinessWords : List Str :=
  [str "cnae", str "actividad", str "industria", str "comercio",
   str "objeto", str "social", str "servicios"]

/-- `isValidSpanishName` (line 775). Checks in source order; the registry
test is reached only when the earlier checks pass, so the `lastIndex`
state evolves exactly as in the source. -/
def isValidSpanishNameS (t : Terms) (text : Str) (li : Nat) : Bool × Nat :=
  if text.isEmpty || text.length < 3 then (false, li)
  else if ((splitWsPlus text).filter (fun w => w.length > 0)).length < 2 then
    (false, li)
  else if text.any isBadNameChar then (false, li)
  else if text.length > 50 then (false, li)
  else
    let r := registryTestS text li
    if r.1 then (false, r.2)
    else if t.officersPositions.any
        (fun pos => upperStr pos == upperStr text) then (false, r.2)
    else if isBusinessActivityDescription text then (false, r.2)
    else if nameBusinessWords.any
        (fun w => containsStr (lowerStr text) w) then (false, r.2)
    else if !(text.head?.elim false isCapSpanish) then (false, r.2)
    else (true, r.2)

/-! ## Officer-name cleaning -/

/-- BORME terms stripped from the end of candidate names
(`cleanOfficerName`, line 1468). -/
def bormeTermsToRemove : List Str :=
  [str "ESTATUTARIAS", str "ESTATUTARIOS", str "NOMBRAMIENTOS",
   str "REELECCIONES", str "CESES", str "DIMISIONES", str "REVOCACIONES",
   str "OTROS CONCEPTOS", str "DATOS REGISTRALES", str "CONSTITUCION",
   str "CONSTITUCIÓN", str "DISOLUCION", str "DISOLUCIÓN",
   str "AMPLIACION", str "AMPLIACIÓN", str "REDUCCION", str "REDUCCIÓN",
   str "LIQUIDADOR", str "LIQUIDADORES"]

/-- The `$`-anchored pattern `\.\s*TERM\s*\.?\s*$` for one term. -/
def termAfterDotItems (term : Str) : List RItem :=
  [.lit false (str "."), .rep isJsWs 0 none, .lit true term,
   .rep isJsWs 0 none, .rep (· == '.') 0 (some 1), .rep isJsWs 0 none]

/-- The `$`-anchored pattern `\s+TERM\s*\.?\s*$` for one term. -/
def termAtEndItems (term : Str) : List RItem :=
  [.rep isJsWs 1 none, .lit true term, .rep isJsWs 0 none,
   .rep (· == '.') 0 (some 1), .rep isJsWs 0 none]

/-- `cleanOfficerName` (line 1464): normalise whitespace, uppercase,
strip trailing bulletin vocabulary, punctuation and leading dashes. -/
def cleanOfficerName (name : Str) : Str :=
  if name.isEmpty then []
  else
    let cleaned := upperStr (trimJs (collapseWs
      (name.map (fun c => if c == '\n' || c == '\r' then ' ' else c))))
    let cleaned := bormeTermsToRemove.foldl
      (fun s term =>
        cutEndPattern (termAtEndItems term)
          (cutEndPattern (termAfterDotItems term) s)) cleaned
    let cleaned :=
      (cleaned.reverse.dropWhile
        (fun c => c == '.' || c == ';' || c == ',')).reverse
    let cleaned :=
      match matchItems
        [.rep isJsWs 0 none,
         .cls (fun c => c == '-' || c == '–' || c == '—'),
         .rep isJsWs 0 none] none cleaned with
      | some r => r.2
      | none => cleaned
    trimJs cleaned

/-! ## Officer-position resolution -/

/-- Remove a trailing run of colons and whitespace — `replace(/[:\s]+$/,'')`. -/
def stripTrailingColonsWs (s : Str) : Str :=
  (s.reverse.dropWhile (fun c => c == ':' || isJsWs c)).reverse

/-- Remove one trailing period — `replace(/\.$/,'')`. -/
def stripOneTrailingDot (s : Str) : Str :=
  if s.getLast? == some '.' then s.dropLast else s

/-- Remove a trailing run of periods, colons and whitespace —
`replace(/[.:\s]+$/,'')` used by the fallback position finder. -/
def stripTrailingDotColonWs (s : Str) : Str :=
  (s.reverse.dropWhile (fun c => c == '.' || c == ':' || isJsWs c)).reverse

/-- The common-abbreviation table of `findOfficerPosition` (line 1366),
in the iteration order of the source object literal. -/
def commonPositionPatterns : List (Str × Str) :=
  [(str "ADM. SOLID.", str "Administrador Solidario"),
   (str "ADM SOLID", str "Administrador Solidario"),
   (str "ADM. MANCOM.", str "Administrador Mancomunado"),
   (str "ADM MANCOM", str "Administrador Mancomunado"),
   (str "ADM. MANCO.", str "Administrador Mancomunado"),
   (str "ADM MANCO", str "Administrador Mancomunado"),
   (str "ADM. ÚNICO", str "Administrador Único"),
   (str "ADM UNICO", str "Administrador Único"),
   (str "ADM.", str "Administrador"),
   (str "ADMINISTRADOR", str "Administrador"),
   (str "LIQUIDADOR", str "Liquidador"),
   (str "PRESIDENTE", str "Presidente"),
   (str "SECRETARIO", str "Secretario"),
   (str "CONSEJERO", str "Consejero"),
   (str "GERENTE", str "Gerente"),
   (str "DIRECTOR", str "Director"),
   (str "APODERADO", str "Apoderado"),
   (str "APODER.", str "Apoderado"),
   (str "APODER", str "Apoderado"),
   (str "SOCIO ÚNICO", str "Socio Único"),
   (str "SOCIO UNICO", str "Socio Único")]

/-- Character class `[UÚ]` under the `i` flag. -/
def isULetter (c : Char) : Bool :=
  jsUpper c == 'U' || jsUpper c == 'Ú'

/-- `findOfficerPositionFallback` (line 1427): fixed regex table applied
to the candidate cleaned of trailing periods, colons and whitespace. -/
def findOfficerPositionFallback (positionText : Str) : Option Str :=
  let cleanText := upperStr (stripTrailingDotColonWs (trimJs positionText))
  if testAnywhere [.lit true (str "ADM"), .rep (· == '.') 0 (some 1),
      .rep isJsWs 0 none, .lit true (str "SOLID")] cleanText then
    some (str "Administrador Solidario")
  else if testAnywhere [.lit true (str "ADM"), .rep (· == '.') 0 (some 1),
      .rep isJsWs 0 none, .lit true (str "MANCOM")] cleanText then
    some (str "Administrador Mancomunado")
  else if testAnywhere [.lit true (str "ADM"), .rep (· == '.') 0 (some 1),
      .rep isJsWs 0 none, .lit true (str "MANCO")] cleanText then
    some (str "Administrador Mancomunado")
  else if testAnywhere [.lit true (str "ADM"), .rep (· == '.') 0 (some 1),
      .rep isJsWs 0 none, .cls isULetter, .lit true (str "NICO")]
      cleanText then
    some (str "Administrador Único")
  else if (matchItemsEnd [.lit true (str "ADM"),
      .rep (· == '.') 0 (some 1)] none cleanText).isSome then
    some (str "Administrador")
  else if testAnywhere [.lit true (str "ADMINISTRADOR")] cleanText then
    some (str "Administrador")
  else if testAnywhere [.lit true (str "LIQUIDADOR")] cleanText then
    some (str "Liquidador")
  else if testAnywhere [.lit true (str "PRESIDENTE")] cleanText then
    some (str "Presidente")
  else if testAnywhere [.lit true (str "SECRETARIO")] cleanText then
    some (str "Secretario")
  else if testAnywhere [.lit true (str "CONSEJERO")] cleanText then
    some (str "Consejero")
  else if testAnywhere [.lit true (str "GERENTE")] cleanText then
    some (str "Gerente")
  else if testAnywhere [.lit true (str "DIRECTOR")] cleanText then
    some (str "Director")
  else if testAnywhere [.lit true (str "APODERADO")] cleanText then
    some (str "Apoderado")
  else if testAnywhere [.lit true (str "APODER"),
      .rep (· == '.') 0 (some 1)] cleanText then
    some (str "Apoderado")
  else if testAnywhere [.lit true (str "SOCIO"), .rep isJsWs 1 none,
      .cls isULetter, .lit true (str "NICO")] cleanText then
    some (str "Socio Único")
  else none

/-- `findOfficerPosition` (line 1304): exact case-insensitive vocabulary
match (with and without a trailing period and with collapsed spaces),
then the common-abbreviation table, then the length-guarded substring
match against the vocabulary, then the fallback regex table; business
descriptions are rejected up front. -/
def findOfficerPosition (t : Terms) (positionText : Str) : Option Str :=
  let cleanText := upperStr (stripTrailingColonsWs (trimJs positionText))
  let cleanTextNoPeriod := stripOneTrailingDot cleanText
  if isBusinessActivityDescription positionText then none
  else
    match t.officersPositions.find? (fun pos =>
        let posUpper := upperStr pos
        posUpper == cleanText || posUpper == cleanTextNoPeriod ||
        posUpper == collapseWs cleanText ||
        posUpper == collapseWs cleanTextNoPeriod) with
    | some exactMatch => some exactMatch
    | none =>
      match commonPositionPatterns.find? (fun p =>
          cleanText == p.1 || containsStr cleanText p.1) with
      | some p => some p.2
      | none =>
        match t.officersPositions.find? (fun pos =>
            let posUpper := upperStr pos
            (containsStr cleanText posUpper &&
              decide (posUpper.length > 3)) ||
            (containsStr posUpper cleanText &&
              decide (cleanText.length > 3))) with
        | some partialMatch => some partialMatch
        | none => findOfficerPositionFallback positionText

/-! ## Top-level category recognition -/

/-- Prefix pattern `/^NAME\s*:/i` for the constitution-content rules. -/
def constitutionContentRule (name : Str) (s : Str) : Bool :=
  (matchItems [.lit true name, .rep isJsWs 0 none, .lit false (str ":")]
    none s).isSome

/-- `findTopLevelCategoryExact` (line 856): exact (case-insensitive)
equality against the vocabulary only. -/
def findTopLevelCategoryExact (t : Terms) (sec : Str) : Option Str :=
  let cleanSection := trimJs sec
  t.alwaysTopLevel.find? (fun category =>
    cleanSection == category ||
    lowerStr cleanSection == lowerStr category)

/-- `findTopLevelCategory` (line 879): the fuzzy variant — constitution
content lines fold into `Constitución`; then exact match; then substring
containment with extra synonym rules for statutory modification and
object-clause categories. -/
def findTopLevelCategory (t : Terms) (sec : Str) : Option Str :=
  let cleanSection := trimJs sec
  if constitutionContentRule (str "Comienzo de operaciones") cleanSection ||
     constitutionContentRule (str "Domicilio") cleanSection ||
     constitutionContentRule (str "Capital") cleanSection ||
     constitutionContentRule (str "Objeto social") cleanSection then
    some (str "Constitución")
  else
    match t.alwaysTopLevel.find? (fun category =>
        cleanSection == category ||
        lowerStr cleanSection == lowerStr category) with
    | some m => some m
    | none =>
      t.alwaysTopLevel.find? (fun category =>
        let categoryLower := lowerStr category
        let sectionLower := lowerStr cleanSection
        containsStr sectionLower categoryLower ||
        (category == str "Modificaciones estatutarias" &&
          (containsStr sectionLower (str "modificacion") ||
           containsStr sectionLower (str "estatutaria"))) ||
        (category == str "Ampliacion del objeto social" &&
          containsStr sectionLower (str "ampliacion") &&
          containsStr sectionLower (str "objeto")) ||
        (category == str "Cambio de objeto social" &&
          containsStr sectionLower (str "cambio") &&
          containsStr sectionLower (str "objeto")))

/-! ## Officer events -/

/-- An extracted officer event: candidate name, resolved position, the
raw text it came from (absent on some paths) and the category label. -/
structure Officer where
  /-- The cleaned officer name. -/
  name : Str
  /-- The position string stored with the event. -/
  position : Str
  /-- The raw text the event was extracted from, when recorded. -/
  raw_entry : Option Str
  /-- The category label stored with the event. -/
  category : Str
deriving DecidableEq, Repr

/-- The four-category officers object of `parseBormeEntry`. -/
structure OfficersByCat where
  /-- Appointments. -/
  nombramientos : List Officer
  /-- Re-elections. -/
  reelecciones : List Officer
  /-- Revocations. -/
  revocaciones : List Officer
  /-- Cessations and resignations. -/
  ceses_dimisiones : List Officer
deriving DecidableEq, Repr

/-- The empty officers object. -/
def OfficersByCat.empty : OfficersByCat := ⟨[], [], [], []⟩

/-- Internal key of an officers category. -/
inductive CatKey where
  /-- `nombramientos` -/
  | nom
  /-- `reelecciones` -/
  | reel
  /-- `revocaciones` -/
  | rev
  /-- `ceses_dimisiones` -/
  | ces
deriving DecidableEq, Repr

/-- `getCategoryKey` (line 1845): constitution officers are treated as
appointments, and unknown labels default to appointments. -/
def getCategoryKey (category : Str) : CatKey :=
  if category == str "Nombramientos" then .nom
  else if category == str "Reelecciones" then .reel
  else if category == str "Revocaciones" then .rev
  else if category == str "Ceses/Dimisiones" then .ces
  else .nom

/-- Append officers to one category list. -/
def OfficersByCat.push (o : OfficersByCat) (k : CatKey) (xs : List Officer) :
    OfficersByCat :=
  match k with
  | .nom => { o with nombramientos := o.nombramientos ++ xs }
  | .reel => { o with reelecciones := o.reelecciones ++ xs }
  | .rev => { o with revocaciones := o.revocaciones ++ xs }
  | .ces => { o with ceses_dimisiones := o.ceses_dimisiones ++ xs }

/-- All officers of the object, in `Object.values` order. -/
def OfficersByCat.all (o : OfficersByCat) : List Officer :=
  o.nombramientos ++ o.reelecciones ++ o.revocaciones ++ o.ceses_dimisiones

/-- `getTotalOfficers` (line 822). -/
def getTotalOfficers (o : OfficersByCat) : Nat :=
  o.nombramientos.length + o.reelecciones.length +
  o.revocaciones.length + o.ceses_dimisiones.length

/-- The deduplication key `name-position` of `deduplicateOfficers`. -/
def officerDedupKey (o : Officer) : Str :=
  o.name ++ str "-" ++ o.position

/-- Keep the first occurrence of every `name-position` key. -/
def dedupOfficerList (seen : List Str) : List Officer → List Officer
  | [] => []
  | o :: os =>
    if seen.contains (officerDedupKey o) then dedupOfficerList seen os
    else o :: dedupOfficerList (seen ++ [officerDedupKey o]) os

/-- `deduplicateOfficers` (line 829): category-level dedup on the
`name-position` key, keeping first occurrences. -/
def deduplicateOfficers (o : OfficersByCat) : OfficersByCat where
  nombramientos := dedupOfficerList [] o.nombramientos
  reelecciones := dedupOfficerList [] o.reelecciones
  revocaciones := dedupOfficerList [] o.revocaciones
  ceses_dimisiones := dedupOfficerList [] o.ceses_dimisiones

/-! ## Shared name filtering -/

/-- Split a names block on `[;,]`, clean every piece, and keep the pieces
that are nonempty, longer than two characters and valid Spanish names —
the chain `split(/[;,]/).map(cleanOfficerName).filter(...)` used by the
inline, fallback and direct strategies. The validity test threads the
registry-regex `lastIndex` in evaluation order. -/
def filterValidNamesS (t : Terms) (names : List Str) (li : Nat) :
    List Str × Nat :=
  match names with
  | [] => ([], li)
  | n :: ns =>
    if n.isEmpty || decide (n.length ≤ 2) then filterValidNamesS t ns li
    else
      let r := isValidSpanishNameS t n li
      let rest := filterValidNamesS t ns r.2
      if r.1 then (n :: rest.1, rest.2) else rest

/-- Clean the split names of a names block. -/
def splitCleanNames (namesPart : Str) : List Str :=
  (splitAny (fun c => c == ';' || c == ',') namesPart).map cleanOfficerName

/-! ## Strategy: structured sections -/

/-- `parseOfficersFromSection` (line 1263): a `Position: Names` section;
names are filtered for length first and validity inside the push loop. -/
def parseOfficersFromSectionS (t : Terms) (sec : Str) (category : Str)
    (li : Nat) : List Officer × Nat :=
  match indexOfChar sec ':' with
  | none => ([], li)
  | some colonIndex =>
    let positionPart := trimJs (sec.take colonIndex)
    let namesPart := trimJs (sec.drop (colonIndex + 1))
    match findOfficerPosition t positionPart with
    | none => ([], li)
    | some officerPosition =>
      if namesPart.isEmpty then ([], li)
      else
        let names := (splitCleanNames namesPart).filter
          (fun n => !n.isEmpty && decide (n.length > 2))
        let r := go officerPosition names li
        r
where
  /-- Validity check and push per candidate name, in order. -/
  go (officerPosition : Str) : List Str → Nat → List Officer × Nat
  | [], li => ([], li)
  | n :: ns, li =>
    let v := isValidSpanishNameS t n li
    let rest := go officerPosition ns v.2
    if v.1 then
      (⟨n, officerPosition, some sec, category⟩ :: rest.1, rest.2)
    else rest

/-- `parseOfficersFromSections` (line 1106): consume up to five sections
after a category header, stopping at registry data or another category. -/
def parseOfficersFromSectionsS (t : Terms) (sections : List Str)
    (startIndex : Nat) (category : Str) (li : Nat) : List Officer × Nat :=
  go (sections.drop startIndex) 5 li
where
  /-- Budgeted walk over the sections after the header. -/
  go : List Str → Nat → Nat → List Officer × Nat
  | [], _, li => ([], li)
  | _, 0, li => ([], li)
  | sec :: rest, b + 1, li =>
    let r := registryTestS sec li
    if r.1 then ([], r.2)
    else if (findTopLevelCategory t sec).isSome then ([], r.2)
    else
      let o := parseOfficersFromSectionS t sec category r.2
      let more := go rest b o.2
      (o.1 ++ more.1, more.2)

/-! ## Strategy: Socio único after a unipersonality declaration -/

/-- Leftmost match of `Socio\s+[uú]nico` followed by `sep` and a greedy
dot-all-free capture `(.+)` (any characters except line terminators, at
least one). `colonSep` selects the first source pattern (with `\s*:\s*`)
over the second (with `\s+`). -/
def socioCapture (colonSep : Bool) (sec : Str) : Option Str :=
  go sec
where
  /-- Non-line-terminator characters, the JavaScript `.` class. -/
  notNl (c : Char) : Bool := c != '\n' && c != '\r'
  /-- The prefix before the final whitespace run and the capture. -/
  preItems : List RItem :=
    [.lit true (str "Socio"), .rep isJsWs 1 none, .cls isULetter,
     .lit true (str "nico")] ++
    (if colonSep then
      [.rep isJsWs 0 none, .lit false (str ":")]
    else [])
  /-- Scan positions left to right for the first full match. -/
  go : Str → Option Str
  | [] => tryAt []
  | c :: cs =>
    match tryAt (c :: cs) with
    | some cap => some cap
    | none => go cs
  /-- Try the pattern at the head of `s`: after the prefix, the greedy
  whitespace run (`\s*` after the colon, `\s+` otherwise) is backtracked
  until the greedy `(.+)` capture is nonempty. -/
  tryAt (s : Str) : Option Str :=
    match matchItems preItems none s with
    | none => none
    | some r =>
      let t := r.2
      let wsMax := maxRun isJsWs t
      let lo := if colonSep then 0 else 1
      if wsMax < lo then none
      else
        ((List.range (wsMax - lo + 1)).map (fun j => wsMax - j)).findSome?
          (fun k =>
            let cap := (t.drop k).takeWhile notNl
            if cap.isEmpty then none else some cap)

/-- `parseSocioUnicoFromSections` (line 1183): look in up to five
sections for a `Socio único` name; on the first valid hit return it; the
first section is additionally tried as a bare name. -/
def parseSocioUnicoFromSectionsS (t : Terms) (sections : List Str)
    (startIndex : Nat) (li : Nat) : List Officer × Nat :=
  go (sections.drop startIndex) 5 li
where
  /-- Budgeted walk; the budget also identifies the first section. -/
  go : List Str → Nat → Nat → List Officer × Nat
  | [], _, li => ([], li)
  | _, 0, li => ([], li)
  | sec :: rest, b + 1, li =>
    let r := registryTestS sec li
    if r.1 then ([], r.2)
    else if (findTopLevelCategory t sec).isSome then ([], r.2)
    else
      match tryPatterns sec [true, false] r.2 with
      | (some o, li2) => ([o], li2)
      | (none, li2) =>
        if b + 1 == 5 then
          -- only for the first section: the whole section as a name
          let potentialName := cleanOfficerName sec
          if potentialName.isEmpty then
            let more := go rest b li2
            more
          else
            let v := isValidSpanishNameS t potentialName li2
            if v.1 && !(findTopLevelCategory t sec).isSome then
              let r2 := registryTestS sec v.2
              if !r2.1 then
                ([⟨potentialName, str "Socio único", some sec,
                   str "Declaración de unipersonalidad"⟩], r2.2)
              else
                let more := go rest b r2.2
                more
            else
              let more := go rest b v.2
              more
        else
          let more := go rest b li2
          more
  /-- The two socio patterns in source order; a match whose cleaned name
  fails validation falls through to the next pattern. -/
  tryPatterns (sec : Str) : List Bool → Nat → Option Officer × Nat
  | [], li => (none, li)
  | colonSep :: ps, li =>
    match socioCapture colonSep sec with
    | none => tryPatterns sec ps li
    | some cap =>
      let socioName := cleanOfficerName cap
      if socioName.isEmpty || decide (socioName.length ≤ 2) then
        tryPatterns sec ps li
      else
        let v := isValidSpanishNameS t socioName li
        if v.1 then
          (some ⟨socioName, str "Socio único", some sec,
            str "Declaración de unipersonalidad"⟩, v.2)
        else tryPatterns sec ps v.2

/-! ## Strategy: direct `Position: Names` lines -/

/-- `extractByDirectPatterns` (line 554): split the entry on periods and
line breaks, skip registry data, category lines and business
descriptions, and read `Position: Names` lines (the colon must not be the
first character); extracted officers are appointments. -/
def extractByDirectPatternsS (t : Terms) (fullEntry : Str) (li : Nat) :
    List Officer × Nat :=
  let lines := ((splitAny (fun c => c == '.' || c == '\n' || c == '\r')
    fullEntry).map trimJs).filter (fun l => decide (l.length > 0))
  go lines li
where
  /-- Per-line processing in order. -/
  go : List Str → Nat → List Officer × Nat
  | [], li => ([], li)
  | line :: ls, li =>
    let r := registryTestS line li
    if r.1 then go ls r.2
    else if (findTopLevelCategory t line).isSome then go ls r.2
    else if isBusinessActivityDescription line then go ls r.2
    else
      match indexOfChar line ':' with
      | none => go ls r.2
      | some colonIndex =>
        if colonIndex == 0 then go ls r.2
        else
          let positionPart := trimJs (line.take colonIndex)
          let namesPart := trimJs (line.drop (colonIndex + 1))
          match findOfficerPosition t positionPart with
          | none => go ls r.2
          | some officerPosition =>
            if namesPart.isEmpty ||
                isBusinessActivityDescription namesPart then
              go ls r.2
            else
              let names := filterValidNamesS t (splitCleanNames namesPart) r.2
              let more := go ls names.2
              (names.1.map (fun n =>
                ⟨n, officerPosition, some line, str "Nombramientos"⟩) ++
                more.1, more.2)

/-! ## Strategy: inline officer categories -/

/-- The officer categories handled by the inline strategy (line 354). -/
def officerCategoriesInline : List Str :=
  [str "Ceses/Dimisiones", str "Nombramientos", str "Reelecciones",
   str "Revocaciones", str "Constitución"]

/-- The category-content lookahead
`(?=\s*(?:OTHERS|Datos\s*registrales|Disolución|Extinción|$))`. -/
def inlineCatLook (others : List Str) (t : Str) : Bool :=
  (List.range (maxRun isJsWs t + 1)).any (fun k =>
    let u := t.drop k
    others.any (fun c => ciStartsWith c u) ||
    (matchItems [.lit true (str "Datos"), .rep isJsWs 0 none,
      .lit true (str "registrales")] none u).isSome ||
    ciStartsWith (str "Disolución") u ||
    ciStartsWith (str "Extinción") u ||
    u.isEmpty)

/-- Minimal lazy capture `[^]*?` up to the lookahead (the lookahead
always succeeds at the end of the text, so the capture is total). -/
def inlineCatContent (others : List Str) : Str → Str
  | [] => []
  | c :: cs =>
    if inlineCatLook others (c :: cs) then []
    else c :: inlineCatContent others cs

/-- All captures of the global pattern
`CATEGORY\.\s*([^]*?)(?=\s*(?:OTHERS|...|$))` over the entry, in order
(`pattern.exec` loop of line 383). -/
def scanInlineCategory (cat : Str) (others : List Str) (s : Str) :
    List Str :=
  go (s.length + 1) s
where
  /-- Fuel-bounded global scan; each match consumes at least the category
  label and its period. -/
  go : Nat → Str → List Str
  | 0, _ => []
  | _ + 1, [] =>
    if inlineCatLook others [] && ciStartsWith (cat ++ str ".") [] then [[]]
    else []
  | fuel + 1, c :: cs =>
    match matchItems [.lit true cat, .lit false (str ".")] none (c :: cs) with
    | some r =>
      let afterWs := r.2.drop (maxRun isJsWs r.2)
      let content := inlineCatContent others afterWs
      content :: go fuel (afterWs.drop content.length)
    | none => go fuel cs

/-- The lookahead of the inline position pattern:
`(?=\.(?:\s|$)|\s*(?:CATS|Otros\s*conceptos|Datos\s*registrales|Disolución|Extinción|$))`. -/
def inlinePosLook (t : Str) : Bool :=
  (match t with
   | '.' :: u => u.isEmpty || u.head?.elim false isJsWs
   | _ => false) ||
  (List.range (maxRun isJsWs t + 1)).any (fun k =>
    let u := t.drop k
    officerCategoriesInline.any (fun c => ciStartsWith c u) ||
    (matchItems [.lit true (str "Otros"), .rep isJsWs 0 none,
      .lit true (str "conceptos")] none u).isSome ||
    (matchItems [.lit true (str "Datos"), .rep isJsWs 0 none,
      .lit true (str "registrales")] none u).isSome ||
    ciStartsWith (str "Disolución") u ||
    ciStartsWith (str "Extinción") u ||
    u.isEmpty)

/-- The regex items for an escaped vocabulary position with optional
periods (`\.?`) and flexible whitespace (`\s*`), as built on line 421. -/
def positionItems (pos : Str) : List RItem :=
  pos.map (fun c =>
    if c == '.' then RItem.rep (· == '.') 0 (some 1)
    else if isJsWs c then RItem.rep isJsWs 0 none
    else RItem.lit true [c])

/-- The lazy capture `([^.]+?)` of the inline position pattern: the
smallest nonempty prefix of non-period characters after which the
lookahead holds. -/
def inlinePosCapture (t : Str) : Option Str :=
  let m := maxRun (· != '.') t
  ((List.range m).map (· + 1)).findSome? (fun k =>
    if inlinePosLook (t.drop k) then some (t.take k) else none)

/-- All captures of the global inline position pattern
`POSITION\s*:\s*([^.]+?)(?=...)` over the normalised content. -/
def scanInlinePosition (pos : Str) (s : Str) : List Str :=
  go (s.length + 1) s
where
  /-- One attempt at the head of the text: position items, `\s*:\s*`,
  then the lazy capture. Returns the capture and the rest after it. -/
  tryAt (u : Str) : Option (Str × Str) :=
    match matchItems (positionItems pos ++
      [.rep isJsWs 0 none, .lit false (str ":"), .rep isJsWs 0 none])
      none u with
    | none => none
    | some r =>
      match inlinePosCapture r.2 with
      | none => none
      | some cap => some (cap, r.2.drop cap.length)
  /-- Fuel-bounded global scan. -/
  go : Nat → Str → List Str
  | 0, _ => []
  | _ + 1, [] => []
  | fuel + 1, c :: cs =>
    match tryAt (c :: cs) with
    | some (cap, rest) => cap :: go fuel rest
    | none => go fuel cs

/-- `parseOfficersFromInlineContentFallback` (line 481): split the raw
content on periods and read `Position: Names` parts, skipping registry
data. -/
def parseOfficersFromInlineContentFallbackS (t : Terms) (content : Str)
    (category : Str) (li : Nat) : List Officer × Nat :=
  let parts := ((splitAny (· == '.') content).map trimJs).filter
    (fun p => decide (p.length > 0))
  go parts li
where
  /-- Per-part processing in order. -/
  go : List Str → Nat → List Officer × Nat
  | [], li => ([], li)
  | part :: ps, li =>
    let r := registryTestS part li
    if r.1 then go ps r.2
    else
      match indexOfChar part ':' with
      | none => go ps r.2
      | some colonIndex =>
        if colonIndex == 0 then go ps r.2
        else
          let positionPart := trimJs (part.take colonIndex)
          let namesPart := trimJs (part.drop (colonIndex + 1))
          match findOfficerPosition t positionPart with
          | none => go ps r.2
          | some officerPosition =>
            if namesPart.isEmpty ||
                isBusinessActivityDescription namesPart then
              go ps r.2
            else
              let names := filterValidNamesS t (splitCleanNames namesPart)
                r.2
              let more := go ps names.2
              (names.1.map (fun n =>
                ⟨n, officerPosition, some part, category⟩) ++ more.1,
                more.2)

/-- `parseOfficersFromInlineContent` (line 402): match every vocabulary
position against the whitespace-normalised content; candidates with a
resolvable position contribute one officer per listed name; if nothing is
found, fall back to period-splitting of the raw content. -/
def parseOfficersFromInlineContentS (t : Terms) (content : Str)
    (category : Str) (li : Nat) : List Officer × Nat :=
  let normalizedContent := trimJs (collapseWs content)
  let r := goPositions normalizedContent t.officersPositions li
  if r.1.isEmpty then
    parseOfficersFromInlineContentFallbackS t content category r.2
  else r
where
  /-- Loop over the vocabulary positions in order. -/
  goPositions (normalizedContent : Str) : List Str → Nat →
      List Officer × Nat
  | [], li => ([], li)
  | pos :: rest, li =>
    let m := goMatches pos (scanInlinePosition pos normalizedContent) li
    let more := goPositions normalizedContent rest m.2
    (m.1 ++ more.1, more.2)
  /-- Loop over the global matches of one position pattern. -/
  goMatches (pos : Str) : List Str → Nat → List Officer × Nat
  | [], li => ([], li)
  | cap :: caps, li =>
    let namesPart := trimJs cap
    if namesPart.isEmpty || isBusinessActivityDescription namesPart then
      goMatches pos caps li
    else
      match findOfficerPosition t pos with
      | none => goMatches pos caps li
      | some officerPosition =>
        let names := filterValidNamesS t (splitCleanNames namesPart) li
        let more := goMatches pos caps names.2
        (names.1.map (fun n =>
          ⟨n, officerPosition,
           some (pos ++ str ": " ++ namesPart), category⟩) ++ more.1,
          more.2)

/-- `extractInlineOfficerCategories` (line 350): for each of the five
officer categories, every inline occurrence `CATEGORY. content` (up to
the next category label or terminator) contributes its parsed officers;
each nonempty content also records the category label. -/
def extractInlineOfficerCategoriesS (t : Terms) (fullEntry : Str)
    (li : Nat) : (OfficersByCat × List Str) × Nat :=
  goCats officerCategoriesInline OfficersByCat.empty [] li
where
  /-- Loop over the five categories in order. -/
  goCats : List Str → OfficersByCat → List Str → Nat →
      (OfficersByCat × List Str) × Nat
  | [], off, cats, li => ((off, cats), li)
  | cat :: rest, off, cats, li =>
    let others := officerCategoriesInline.filter (· != cat)
    let r := goContents cat (scanInlineCategory cat others fullEntry)
      off cats li
    goCats rest r.1.1 r.1.2 r.2
  /-- Loop over the matches of one category pattern. -/
  goContents (cat : Str) : List Str → OfficersByCat → List Str → Nat →
      (OfficersByCat × List Str) × Nat
  | [], off, cats, li => ((off, cats), li)
  | content :: ms, off, cats, li =>
    let categoryContent := trimJs content
    if categoryContent.isEmpty then goContents cat ms off cats li
    else
      let r := parseOfficersFromInlineContentS t categoryContent cat li
      goContents cat ms (off.push (getCategoryKey cat) r.1)
        (cats ++ [cat]) r.2

/-! ## Strategy: name proximity -/

/-- The position keywords of `extractByNameProximity` (line 620), in
source order. -/
def positionKeywords : List Str :=
  [str "ADMINISTRADOR ÚNICO", str "ADMINISTRADOR UNICO",
   str "ADM. ÚNICO", str "ADM. UNICO", str "ADM.ÚNICO", str "ADM.UNICO",
   str "ADMINISTRADOR", str "ADMINISTRADORA", str "ADM.", str "ADMIN.",
   str "PRESIDENTE", str "PRESIDENTA", str "PRES.", str "SECRETARIO",
   str "SECRETARIA", str "SECR.", str "CONSEJERO", str "CONSEJERA",
   str "CONS.", str "GERENTE", str "GERENT.", str "DIRECTOR",
   str "DIRECTORA", str "DIR.", str "ÚNICO", str "UNICO",
   str "SOLIDARIO", str "SOLIDARIA", str "SOCIO ÚNICO", str "SOCIO UNICO"]

/-- The capture class `[A-ZÁÉÍÓÚÑa-záéíóúñ\s]` of the proximity
pattern. -/
def isProximityNameChar (c : Char) : Bool :=
  isUpperAZ c || ('a' ≤ c && c ≤ 'z') ||
  (str "ÁÉÍÓÚÑáéíóúñ").contains c || isJsWs c

/-- All captures of the global proximity pattern
`\bKEYWORD\b[\s:]*([A-ZÁÉÍÓÚÑa-záéíóúñ\s]+)` over the entry. -/
def scanProximity (keyword : Str) (s : Str) : List Str :=
  go (s.length + 1) none s
where
  /-- One attempt at the head: keyword between word boundaries, then a
  greedy (and backtrackable) `[\s:]*` run, then a nonempty greedy capture
  of name characters. -/
  tryAt (prev : Option Char) (u : Str) : Option (Str × Str) :=
    match matchItems [.wb, .lit true keyword, .wb] prev u with
    | none => none
    | some r =>
      let t := r.2
      let wsMax := maxRun (fun c => isJsWs c || c == ':') t
      ((List.range (wsMax + 1)).map (fun j => wsMax - j)).findSome?
        (fun k =>
          let cap := (t.drop k).takeWhile isProximityNameChar
          if cap.isEmpty then none
          else some (cap, (t.drop k).drop cap.length))
  /-- Fuel-bounded global scan. -/
  go : Nat → Option Char → Str → List Str
  | 0, _, _ => []
  | _ + 1, _, [] => []
  | fuel + 1, prev, c :: cs =>
    match tryAt prev (c :: cs) with
    | some (cap, rest) => cap :: go fuel cap.getLast? rest
    | none => go fuel (some c) cs

/-- `extractByNameProximity` (line 618): for every keyword, every
capture is cleaned and validated; the resolved position falls back to the
raw keyword (`findOfficerPosition(keyword) || keyword`); duplicates by
exact name across the whole officers object are skipped; hits are stored
as appointments. -/
def extractByNameProximityS (t : Terms) (fullEntry : Str)
    (officers0 : OfficersByCat) (li : Nat) : OfficersByCat × Nat :=
  goKeywords positionKeywords officers0 li
where
  /-- Loop over the keywords in order. -/
  goKeywords : List Str → OfficersByCat → Nat → OfficersByCat × Nat
  | [], off, li => (off, li)
  | kw :: rest, off, li =>
    let r := goMatches kw (scanProximity kw fullEntry) off li
    goKeywords rest r.1 r.2
  /-- Loop over the captures of one keyword. -/
  goMatches (kw : Str) : List Str → OfficersByCat → Nat →
      OfficersByCat × Nat
  | [], off, li => (off, li)
  | cap :: caps, off, li =>
    let potentialName := cleanOfficerName cap
    let v := isValidSpanishNameS t potentialName li
    if v.1 then
      let officerPosition := (findOfficerPosition t kw).getD kw
      if (off.all.any (fun o => o.name == potentialName)) then
        goMatches kw caps off v.2
      else
        goMatches kw caps
          (off.push .nom [⟨potentialName, officerPosition,
            some (str "(proximity match)"), str "Nombramientos"⟩]) v.2
    else goMatches kw caps off v.2

/-! ## The composed extractor -/

/-- The wedge of `extractByCategories` after the inline pass: walk the
smart-split sections; an exact top-level category header that the inline
pass has not already recorded consumes everything up to the next exact
header. Officer categories and `Constitución` parse officers;
`Declaración de unipersonalidad` parses a Socio único. The constitution
details record and the `Cambio de domicilio social` address (pure regex
extractions that no claim depends on) are not modelled. -/
def sectionPassS (t : Terms) (sections : List Str) (cats0 : List Str)
    (li : Nat) : (OfficersByCat × List Str) × Nat :=
  go (sections.length + 1) 0 OfficersByCat.empty cats0 li
where
  /-- Index of the next exact top-level category at or after `j`. -/
  nextCategoryIndex (j : Nat) : Nat :=
    match (sections.drop j).findIdx?
      (fun sec => (findTopLevelCategoryExact t sec).isSome) with
    | some k => j + k
    | none => sections.length
  /-- Fuel-bounded walk over section indices with jumps. -/
  go : Nat → Nat → OfficersByCat → List Str → Nat →
      (OfficersByCat × List Str) × Nat
  | 0, _, off, cats, li => ((off, cats), li)
  | fuel + 1, i, off, cats, li =>
    match sections.drop i with
    | [] => ((off, cats), li)
    | sec :: _ =>
      match findTopLevelCategoryExact t sec with
      | some category =>
        if cats.contains category then go fuel (i + 1) off cats li
        else
          let cats := cats ++ [category]
          let nextIdx := nextCategoryIndex (i + 1)
          if [str "Nombramientos", str "Reelecciones",
              str "Revocaciones", str "Ceses/Dimisiones"].contains
              category then
            let r := parseOfficersFromSectionsS t sections (i + 1)
              category li
            go fuel nextIdx (off.push (getCategoryKey category) r.1)
              cats r.2
          else if category == str "Declaración de unipersonalidad" then
            let r := parseSocioUnicoFromSectionsS t sections (i + 1) li
            go fuel nextIdx (off.push .nom r.1) cats r.2
          else if category == str "Constitución" then
            let r := parseOfficersFromSectionsS t sections (i + 1)
              (str "Constitución") li
            go fuel nextIdx (off.push .nom r.1) cats r.2
          else
            go fuel nextIdx off cats li
      | none => go fuel (i + 1) off cats li

/-- `extractByCategories` (line 251): the inline pass runs first, then
the section-by-section pass always runs as a backup (its header check
skips categories the inline pass already recorded), and the combined
officers are deduplicated per category. -/
def extractByCategoriesS (t : Terms) (fullEntry : Str) (li : Nat) :
    (OfficersByCat × List Str) × Nat :=
  let inl := extractInlineOfficerCategoriesS t fullEntry li
  let sections := smartSplitBormeEntry fullEntry
  let sp := sectionPassS t sections inl.1.2 inl.2
  ((deduplicateOfficers ⟨
     inl.1.1.nombramientos ++ sp.1.1.nombramientos,
     inl.1.1.reelecciones ++ sp.1.1.reelecciones,
     inl.1.1.revocaciones ++ sp.1.1.revocaciones,
     inl.1.1.ceses_dimisiones ++ sp.1.1.ceses_dimisiones⟩,
    sp.1.2), sp.2)

/-- `extractOfficersEnhanced` (line 227): the category strategies always
run; direct patterns only when they produced nothing; name proximity
only when direct patterns also produced nothing. -/
def extractOfficersEnhancedS (t : Terms) (fullEntry : Str) (li : Nat) :
    (OfficersByCat × List Str) × Nat :=
  let r1 := extractByCategoriesS t fullEntry li
  let off1 := r1.1.1
  if getTotalOfficers off1 == 0 then
    let r2 := extractByDirectPatternsS t fullEntry r1.2
    let off2 := off1.push .nom r2.1
    if getTotalOfficers off2 == 0 then
      let r3 := extractByNameProximityS t fullEntry off2 r2.2
      ((r3.1, r1.1.2), r3.2)
    else ((off2, r1.1.2), r2.2)
  else r1

/-! ## Corporate events and company status -/

/-- Dissolution subtype stored in the details of a `Disolución` event. -/
inductive DissolutionType where
  /-- `voluntaria` found in the context window. -/
  | voluntary
  /-- `judicial` found in the context window. -/
  | judicial
  /-- `concursal` or `concurso` found in the context window. -/
  | bankruptcy
  /-- No subtype keyword in the context window. -/
  | unknown
deriving DecidableEq, Repr

/-- A corporate event. Only the fields that the company-status derivation
reads are modelled: the event type and, for dissolution events, the
subtype; the category/label/icon decoration, dates and the per-type
detail records (capital amounts, addresses, names) feed only the
timeline rendering. -/
structure CorpEvent where
  /-- The top-level category name of the event. -/
  type : Str
  /-- The dissolution subtype, present exactly on `Disolución` events. -/
  dissolutionType : Option DissolutionType
deriving DecidableEq, Repr

/-- The officer-related event types skipped by the corporate-event scan
(line 2271). -/
def officerEventSkipList : List Str :=
  [str "Nombramientos", str "N o m b r a m i e n t o s",
   str "Reelecciones", str "R e e l e c c i o n e s",
   str "Revocaciones", str "R e v o c a c i o n e s",
   str "Ceses/Dimisiones", str "C e s e s / D i m i s i o n e s",
   str "Cancelaciones de oficio de nombramientos"]

/-- The bounded dissolution context window (line 2341): the capture of
`/Disolución[.:\s]*([^.]{0,150})/i` — after the first (case-insensitive)
`Disolución` mention, skip the greedy run of periods, colons and
whitespace, then take at most 150 characters stopping before the next
period. An entry without a mention yields the empty context. -/
def dissolutionContext (fullEntry : Str) : Str :=
  match ciIndexOf fullEntry (str "Disolución") with
  | none => []
  | some i =>
    let t := fullEntry.drop (i + (str "Disolución").length)
    let afterSep := t.dropWhile (fun c => c == '.' || c == ':' || isJsWs c)
    (afterSep.takeWhile (· != '.')).take 150

/-- The dissolution subtype read from the context window (line 2343):
`voluntaria`, then `judicial`, then `concursal` / `concurso`, else
unknown. -/
def dissolutionTypeOf (context : Str) : DissolutionType :=
  if ciContains context (str "voluntaria") then .voluntary
  else if ciContains context (str "judicial") then .judicial
  else if ciContains context (str "concursal") ||
      ciContains context (str "concurso") then .bankruptcy
  else .unknown

/-- `extractCorporateEvents` (line 2254): every non-officer vocabulary
category whose (escaped, case-insensitive) pattern occurs in the entry
contributes one event; `Disolución` events carry the subtype derived
from the bounded context window. -/
def extractCorporateEvents (t : Terms) (fullEntry : Str) :
    List CorpEvent :=
  if fullEntry.isEmpty then []
  else
    t.alwaysTopLevel.filterMap (fun eventType =>
      if officerEventSkipList.contains eventType then none
      else if ciContains fullEntry eventType then
        some ⟨eventType,
          if eventType == str "Disolución" then
            some (dissolutionTypeOf (dissolutionContext fullEntry))
          else none⟩
      else none)

/-- A derived company status (the `status` string of
`getCompanyStatusFromEvents`; the Spanish label is presentation only). -/
def getCompanyStatusFromEvents (events : List CorpEvent) : Str :=
  if events.isEmpty then str "unknown"
  else if events.any (fun e => e.type == str "Extinción") then
    str "extinct"
  else if events.any (fun e => e.type == str "Disolución") then
    match (events.find? (fun e => e.type == str "Disolución")).bind
      (·.dissolutionType) with
    | some .voluntary => str "dissolved_voluntary"
    | some .judicial => str "dissolved_judicial"
    | some .bankruptcy => str "dissolved_bankruptcy"
    | _ => str "dissolved"
  else if events.any (fun e => e.type == str "Quiebra" ||
      e.type == str "Situación concursal") then
    str "bankrupt"
  else if events.any (fun e => e.type == str "Suspensión de pagos") then
    str "suspended"
  else if events.any (fun e => e.type == str "Constitución") then
    str "active"
  else str "active"

/-! ## The parse entry points -/

/-- The result of `parseBormeEntry`. The early return for a falsy entry
uses a bare array for `officers` (a different shape from the
four-category object) and omits the corporate-events field; both quirks
are modelled. The name-change fields and the new-address field (pure
regex extractions no claim depends on) are not modelled. -/
structure BormeResult where
  /-- Either the early-return empty array or the categorised object. -/
  officers : Sum (List Officer) OfficersByCat
  /-- The first registry-pattern match of the entry. -/
  registryData : Option Str
  /-- The categories recorded while extracting. -/
  categories : List Str
  /-- The categorised corporate events; `none` on the early return
  (the field is absent there). -/
  corporateEvents : Option (List CorpEvent)
deriving DecidableEq, Repr

/-- `parseBormeEntry` (line 182) for a possibly null/empty entry string,
threading the registry-regex `lastIndex`. A falsy entry returns the
documented empty structure without touching the shared regex; otherwise
the first operation is `fullEntry.match(this.registryPattern)`, which
per the ECMAScript specification resets `lastIndex` to zero before
matching — every later `test` therefore starts from a state that does
not depend on the incoming `lastIndex`. -/
def parseBormeEntryS (t : Terms) (fullEntry : Option Str) (li : Nat) :
    BormeResult × Nat :=
  match fullEntry with
  | none => (⟨.inl [], none, [], none⟩, li)
  | some e =>
    if e.isEmpty then (⟨.inl [], none, [], none⟩, li)
    else
      let m := registryMatchAll e li
      let r := extractOfficersEnhancedS t e m.2
      ((⟨.inr r.1.1, m.1, r.1.2, some (extractCorporateEvents t e)⟩),
        r.2)

/-- The officer-relevant projection of the `parseSpanishCompanyData`
result. The presentational fields (company name, CIF, address, activity,
capital, constitution date, name changes) are produced by fresh
non-global regexes and are not modelled. -/
structure ParseResult where
  /-- The four-category officers object. -/
  officers : OfficersByCat
  /-- The first registry-pattern match, when a full entry was parsed. -/
  registry_data : Option Str
  /-- The categorised corporate events (with their merged dates
  dropped). -/
  corporateEvents : List CorpEvent
  /-- The derived company status, set only when events were found. -/
  companyStatus : Option Str
  /-- `enhanced` or `fallback`. -/
  parsing_method : Str
deriving DecidableEq, Repr

/-- The `parsed_details` record supplied by the upstream service: the
four optional category arrays and the optional administrators array
(strings); the scalar detail fields are presentational and not
modelled. -/
structure ParsedDetails where
  /-- Optional appointments array, copied verbatim. -/
  nombramientos : Option (List Officer)
  /-- Optional re-elections array, copied verbatim. -/
  reelecciones : Option (List Officer)
  /-- Optional revocations array, copied verbatim. -/
  revocaciones : Option (List Officer)
  /-- Optional cessations array, copied verbatim. -/
  ceses_dimisiones : Option (List Officer)
  /-- Optional flat administrators list (name strings). -/
  administrators : Option (List Str)
deriving DecidableEq, Repr

/-- An all-absent details record. -/
def ParsedDetails.empty : ParsedDetails := ⟨none, none, none, none, none⟩

/-- The raw input object of `parseSpanishCompanyData`, reduced to the
fields that drive officer extraction. -/
structure RawData where
  /-- The full bulletin entry text. -/
  full_entry : Option Str
  /-- Alternative text content fields tried by the fallback. -/
  content : Option Str
  /-- Alternative text content fields tried by the fallback. -/
  text : Option Str
  /-- Alternative text content fields tried by the fallback. -/
  summary : Option Str
  /-- The upstream partially parsed details. -/
  parsed_details : Option ParsedDetails
deriving DecidableEq, Repr

/-- An all-absent raw record. -/
def RawData.empty : RawData := ⟨none, none, none, none, none⟩

/-- A JavaScript string option is falsy when absent or empty. -/
def truthyStr : Option Str → Bool
  | none => false
  | some s => !s.isEmpty

/-- The string value of a possibly absent text field (`|| ''`). -/
def textOr : Option Str → Str → Str
  | none, d => d
  | some s, d => if s.isEmpty then d else s

/-- The officers object of a borme result, with the early-return array
shape collapsing to the empty object (that shape is unreachable here
because the call sites guard on a truthy entry). -/
def bormeOfficersObj : Sum (List Officer) OfficersByCat → OfficersByCat
  | .inr o => o
  | .inl _ => OfficersByCat.empty

/-- Step 1 of `parseSpanishCompanyData` (line 1950): when a full entry
is present, parse it and take its officers, registry data, corporate
events and derived status. -/
def pscStep1 (t : Terms) (raw : RawData) (li : Nat) : ParseResult × Nat :=
  let base : ParseResult :=
    ⟨OfficersByCat.empty, none, [], none, str "enhanced"⟩
  if truthyStr raw.full_entry then
    let b := parseBormeEntryS t raw.full_entry li
    let events := (b.1.corporateEvents).getD []
    ({ base with
        officers := bormeOfficersObj b.1.officers
        registry_data := b.1.registryData
        corporateEvents := if events.isEmpty then [] else events
        companyStatus :=
          if events.isEmpty then none
          else some (getCompanyStatusFromEvents events) }, b.2)
  else (base, li)

/-- Step 2 of `parseSpanishCompanyData` (line 2058): when
`parsed_details` is present and nothing was extracted yet, copy its
category arrays verbatim and append its administrators as appointment
events. This step is pure and leaves the regex state unchanged. -/
def pscStep2 (raw : RawData) (step1 : ParseResult × Nat) :
    ParseResult × Nat :=
  match raw.parsed_details with
  | none => step1
  | some pd =>
    if getTotalOfficers step1.1.officers == 0 then
      let off := OfficersByCat.mk
        (pd.nombramientos.getD step1.1.officers.nombramientos)
        (pd.reelecciones.getD step1.1.officers.reelecciones)
        (pd.revocaciones.getD step1.1.officers.revocaciones)
        (pd.ceses_dimisiones.getD step1.1.officers.ceses_dimisiones)
      let off := off.push .nom
        ((pd.administrators.getD []).map (fun admin =>
          ⟨admin, str "Administrador", none, str "Nombramientos"⟩))
      ({ step1.1 with officers := off }, step1.2)
    else step1

/-- The fallback text content `content || text || summary || ''`
(line 2106). -/
def pscText (raw : RawData) : Str :=
  textOr raw.content (textOr raw.text (textOr raw.summary []))

/-- The officers part of `parseSpanishCompanyData` (line 1862): parse
the full entry when present; merge `parsed_details` officers only when
nothing was extracted; finally re-parse any other text content when
still empty (setting the `fallback` method). The registry-regex
`lastIndex` is threaded through both `parseBormeEntry` calls. -/
def parseSpanishCompanyDataS (t : Terms) (raw : RawData) (li : Nat) :
    ParseResult × Nat :=
  let step2 := pscStep2 raw (pscStep1 t raw li)
  let textContent := pscText raw
  if !textContent.isEmpty &&
      getTotalOfficers step2.1.officers == 0 then
    let fb := parseBormeEntryS t (some textContent) step2.2
    ({ step2.1 with
        officers := bormeOfficersObj fb.1.officers
        parsing_method := str "fallback" }, fb.2)
  else step2

/-- A JavaScript value reaching the parse entry points: `null`, a plain
string, or a raw-data object. -/
inductive JsInput where
  /-- The `null` value. -/
  | null
  /-- A plain string (property access yields `undefined`, so it parses
  like an all-absent object). -/
  | strVal (s : Str)
  /-- A raw-data object. -/
  | obj (raw : RawData)
deriving DecidableEq, Repr

/-- A modelled JavaScript exception. -/
inductive JsErr where
  /-- `TypeError: Cannot read properties of null`. -/
  | typeErr
deriving DecidableEq, Repr

/-- `parseSpanishCompanyData` as called from outside: reading
`rawData.full_entry` on line 1870 throws a `TypeError` when `rawData`
is `null`; a string input behaves as an object with every field
`undefined`; an object input cannot throw (every further field access
is guarded or tolerant of `undefined`). -/
def parseSpanishCompanyDataJs (t : Terms) (input : JsInput) (li : Nat) :
    Except JsErr (ParseResult × Nat) :=
  match input with
  | .null => .error .typeErr
  | .strVal _ => .ok (parseSpanishCompanyDataS t RawData.empty li)
  | .obj raw => .ok (parseSpanishCompanyDataS t raw li)

/-! ## Name normalisation and identity matching (companies service,
source file `part_000`) -/

/-- Strip combining diacritics as `normalize('NFD')` followed by
removing `[̀-ͯ]` does, for the Spanish alphabet. -/
def stripDiacritics (c : Char) : Char :=
  if c == 'Á' then 'A' else if c == 'É' then 'E'
  else if c == 'Í' then 'I' else if c == 'Ó' then 'O'
  else if c == 'Ú' then 'U' else if c == 'Ñ' then 'N'
  else if c == 'Ü' then 'U'
  else if c == 'á' then 'a' else if c == 'é' then 'e'
  else if c == 'í' then 'i' else if c == 'ó' then 'o'
  else if c == 'ú' then 'u' else if c == 'ñ' then 'n'
  else if c == 'ü' then 'u' else c

/-- `normalizeSpanishName` (line 855): uppercase, trim, collapse
whitespace, strip one leading honorific (`DON|DOÑA|D.|DÑA.` plus
whitespace, anchored at the start), strip one trailing generational
suffix (whitespace plus `JR.?|SR.?|III?|IV`, anchored at the end),
remove diacritics, trim. -/
def normalizeSpanishName (name : Str) : Str :=
  if name.isEmpty then []
  else
    let s := collapseWs (trimJs (upperStr name))
    let s :=
      match matchItems
        [.alts true [str "DON", str "DOÑA", str "D.", str "DÑA."],
         .rep isJsWs 1 none] none s with
      | some r => r.2
      | none => s
    let s := cutEndPattern
      [.rep isJsWs 1 none,
       .alts true [str "JR.", str "JR", str "SR.", str "SR", str "III",
         str "II", str "IV"]] s
    trimJs (s.map stripDiacritics)

/-- `extractNameParts` (line 879): tokens of length at least two of the
normalised name; names of at most three such parts keep all of them,
longer names keep the first part and the last two. -/
def extractNameParts (name : Str) : List Str :=
  let parts := (splitWsPlus (normalizeSpanishName name)).filter
    (fun w => decide (w.length > 1))
  if parts.length ≤ 3 then parts
  else parts.take 1 ++ parts.drop (parts.length - 2)

/-- Distinct elements in first-occurrence order — `new Set(list)`. -/
def jsSetGo (seen : List Str) : List Str → List Str
  | [] => []
  | x :: xs =>
    if seen.contains x then jsSetGo seen xs
    else x :: jsSetGo (seen ++ [x]) xs

/-- Distinct elements in first-occurrence order. -/
def jsSetList (l : List Str) : List Str := jsSetGo [] l

/-- The element before the last one, when it exists. -/
def secondLast? (l : List Str) : Option Str := l.reverse.tail.head?

/-- `areNamesSimilar` (line 902) at the default threshold `0.5`: exact
normalised equality; otherwise, when both names have at least two
significant parts, a surname-priority override (both of the final two
part pairs equal, under the two/three-part preconditions) or a Jaccard
similarity of at least one half (`2·|∩| ≥ |∪|`, exact because the
set sizes are tiny integers) or at least two shared parts. Names with
fewer than two significant parts fall back to exact equality. -/
def areNamesSimilar (name1 name2 : Str) : Bool :=
  if name1.isEmpty || name2.isEmpty then false
  else
    let normalized1 := normalizeSpanishName name1
    let normalized2 := normalizeSpanishName name2
    if normalized1 == normalized2 then true
    else
      let parts1 := extractNameParts name1
      let parts2 := extractNameParts name2
      if parts1.length < 2 || parts2.length < 2 then
        normalized1 == normalized2
      else
        let set1 := jsSetList parts1
        let set2 := jsSetList parts2
        let intersection := set1.filter (fun x => set2.contains x)
        let unionSize := (jsSetList (set1 ++ set2)).length
        let lastName1Match :=
          decide (parts1.length ≥ 2) && decide (parts2.length ≥ 2) &&
          parts1.getLast? == parts2.getLast?
        let lastName2Match :=
          decide (parts1.length ≥ 3) && decide (parts2.length ≥ 3) &&
          secondLast? parts1 == secondLast? parts2
        if lastName1Match && lastName2Match then true
        else
          decide (2 * intersection.length ≥ unionSize) ||
          decide (intersection.length ≥ 2)

/-! ## The temporal state resolver (`calculateCurrentOfficerState`) -/

/-- The four officer event categories of the resolver. -/
inductive OffCat where
  /-- Appointments. -/
  | nombramientos
  /-- Re-elections. -/
  | reelecciones
  /-- Cessations and resignations. -/
  | ceses_dimisiones
  /-- Revocations. -/
  | revocaciones
deriving DecidableEq, Repr

/-- Line 1030: `isAppointment` holds of appointments and re-elections. -/
def OffCat.isAppointment : OffCat → Bool
  | .nombramientos => true
  | .reelecciones => true
  | _ => false

/-- Line 1031: `isCessation` holds of cessations and revocations. -/
def OffCat.isCessation : OffCat → Bool
  | .ceses_dimisiones => true
  | .revocaciones => true
  | _ => false

/-- One timeline event of the resolver (the `event` object of
line 1033, with the raw officer payload dropped). -/
structure TEvent where
  /-- The officer name as reported. -/
  name : Str
  /-- The normalised officer name (the grouping key component). -/
  normalizedName : Str
  /-- The exact position string (the other grouping key component). -/
  position : Str
  /-- The event date (`1900-01-01` when the source had none). -/
  date : Str
  /-- The event category, which fixes the appointment/cessation flags. -/
  category : OffCat
deriving DecidableEq, Repr

/-- The grouping key `normalizedName_position` of line 1047. -/
def groupKey (e : TEvent) : Str :=
  e.normalizedName ++ str "_" ++ e.position

/-- Lexicographic order on strings; on ISO `YYYY-MM-DD` dates it agrees
with the `new Date(a) - new Date(b)` comparator of the source. -/
def strLexLe : Str → Str → Bool
  | [], _ => true
  | _ :: _, [] => false
  | c :: cs, d :: ds =>
    if c.toNat < d.toNat then true
    else if d.toNat < c.toNat then false
    else strLexLe cs ds

/-- Stable insertion into a date-sorted list: an incoming event goes
before the first strictly-later-or-equal date, so that events with equal
dates keep their original order (`Array.prototype.sort` is stable). -/
def insertByDate (e : TEvent) : List TEvent → List TEvent
  | [] => [e]
  | x :: xs =>
    if strLexLe e.date x.date then e :: x :: xs
    else x :: insertByDate e xs

/-- Stable sort of a group by ascending date (line 1061). -/
def sortEventsByDate : List TEvent → List TEvent
  | [] => []
  | e :: es => insertByDate e (sortEventsByDate es)

/-- The per-group fold state of lines 1070-1072. -/
structure GroupState where
  /-- Whether the position is currently held. -/
  isCurrentlyActive : Bool
  /-- The date of the latest appointment seen (not cleared by a
  cessation, faithful to the source). -/
  latestActiveDate : Option Str
  /-- The category of the latest appointment seen. -/
  latestAppointmentType : Option OffCat
deriving DecidableEq, Repr

/-- One step of the chronological fold (lines 1074-1086): an appointment
activates the position and records its date and type; a cessation only
deactivates it. -/
def applyEvent (st : GroupState) (e : TEvent) : GroupState :=
  if e.category.isAppointment then ⟨true, some e.date, some e.category⟩
  else if e.category.isCessation then
    { st with isCurrentlyActive := false }
  else st

/-- The resolver state of one `normalizedName_position` group: sort the
events chronologically and fold. -/
def analyzeGroup (events : List TEvent) : GroupState :=
  (sortEventsByDate events).foldl applyEvent ⟨false, none, none⟩

/-! ## Spanish date formatting -/

/-- Numeric value of a digit string. -/
def digitsVal (ds : Str) : Nat :=
  ds.foldl (fun acc c => 10 * acc + (c.toNat - '0'.toNat)) 0

/-- JavaScript `parseInt` in base ten: leading whitespace, an optional
sign, then a maximal digit prefix; `NaN` is `none`. -/
def jsParseInt (s : Str) : Option Int :=
  let t := s.dropWhile isJsWs
  let sign : Int := if t.head? == some '-' then -1 else 1
  let t := if t.head? == some '-' || t.head? == some '+' then t.tail else t
  let ds := t.takeWhile isDigitChar
  if ds.isEmpty then none else some (sign * (digitsVal ds : Int))

/-- `padStart(2, '0')`. -/
def padStart2 (s : Str) : Str :=
  List.replicate (2 - s.length) '0' ++ s

/-- The two-digit-year pivot of `formatSpanishDate` (line 2238): a
two-digit year expands to `20yy` when its numeric value is below fifty
and to `19yy` otherwise (`NaN < 50` is false, so a non-numeric two-digit
year also gets `19`); other lengths pass through unchanged. -/
def expandYear (year : Str) : Str :=
  if year.length == 2 then
    match jsParseInt year with
    | some n => if n < 50 then str "20" ++ year else str "19" ++ year
    | none => str "19" ++ year
  else year

/-- The delimiter class of the date split: period, slash or dash. -/
def isDateDelim (c : Char) : Bool := c == '.' || c == '/' || c == '-'

/-- The main body of `formatSpanishDate` after the falsy guard. -/
def formatSpanishDateCore (s : Str) : Str :=
  match splitAny isDateDelim s with
  | [day, month, year] =>
    expandYear year ++ str "-" ++ padStart2 month ++ str "-" ++
      padStart2 day
  | _ => s

/-- `formatSpanishDate` (line 2229): a falsy input (null or the empty
string) yields `null`; an input that does not split into exactly three
components on periods, slashes and dashes is returned unchanged;
otherwise the result is `year-month-day` with day and month zero-padded
to two digits and a two-digit year pivoted by `expandYear`. -/
def formatSpanishDate : Option Str → Option Str
  | none => none
  | some s => if s.isEmpty then none else some (formatSpanishDateCore s)

/-! ## Instrumentation of the strategy chain -/

/-- The four extraction strategies named by the spec. -/
inductive Strategy where
  /-- The inline `Category. Position: Names.` pass. -/
  | inlinePattern
  /-- The section-by-section category-structured pass. -/
  | categoryStructured
  /-- The direct `Position: Names` line pass. -/
  | directPattern
  /-- The keyword-proximity pass. -/
  | nameProximity
deriving DecidableEq, Repr

/-- Which strategies `extractOfficersEnhanced` invokes on an entry, in
invocation order — a direct instrumentation of its control flow: the
inline pass and the section pass both always run (inside
`extractByCategories`, inline first); the direct-pattern pass runs only
when they produced zero officers; the proximity pass only when the
direct pass also left zero. -/
def invokedStrategiesS (t : Terms) (fullEntry : Str) (li : Nat) :
    List Strategy :=
  let r1 := extractByCategoriesS t fullEntry li
  if getTotalOfficers r1.1.1 == 0 then
    let r2 := extractByDirectPatternsS t fullEntry r1.2
    if getTotalOfficers (r1.1.1.push .nom r2.1) == 0 then
      [.inlinePattern, .categoryStructured, .directPattern,
       .nameProximity]
    else [.inlinePattern, .categoryStructured, .directPattern]
  else [.inlinePattern, .categoryStructured]

/-! ## Spec-side predicates for comparison -/

/-- The name-validity invariant exactly as the spec states it: at least
two whitespace-separated tokens, a leading capital letter, and no
digits. -/
def specNameOk (name : Str) : Bool :=
  decide (((splitWsPlus name).filter (fun w => !w.isEmpty)).length ≥ 2) &&
  name.head?.elim false isCapSpanish &&
  !name.any isDigitChar

/-- The surname-priority override as the spec words it: both names have
enough significant parts (at least two for the final parts, at least
three for the preceding ones) and both of the final two part pairs agree
pairwise. -/
def surnameOverrideSpec (n1 n2 : Str) : Bool :=
  let parts1 := extractNameParts n1
  let parts2 := extractNameParts n2
  decide (parts1.length ≥ 2) && decide (parts2.length ≥ 2) &&
  decide (parts1.length ≥ 3) && decide (parts2.length ≥ 3) &&
  parts1.getLast? == parts2.getLast? &&
  secondLast? parts1 == secondLast? parts2

/-- The number of shared significant parts, spec formulation (distinct
parts of the first name that occur among the second name's parts). -/
def interCountSpec (n1 n2 : Str) : Nat :=
  ((extractNameParts n1).dedup.filter
    (fun x => (extractNameParts n2).contains x)).length

/-- The number of distinct significant parts of the two names together,
spec formulation. -/
def unionCountSpec (n1 n2 : Str) : Nat :=
  ((extractNameParts n1) ++ (extractNameParts n2)).dedup.length

/-- The identity-matching decision rule exactly as the claim states it:
exact normalised equality, else surname-priority override, else Jaccard
similarity at least one half, else at least two shared parts — with no
guard for names that have fewer than two significant parts. -/
def similarClaimed (n1 n2 : Str) : Bool :=
  if normalizeSpanishName n1 == normalizeSpanishName n2 then true
  else
    surnameOverrideSpec n1 n2 ||
    decide (2 * interCountSpec n1 n2 ≥ unionCountSpec n1 n2) ||
    decide (interCountSpec n1 n2 ≥ 2)

/-- Provenance of an extracted officer event: the stored position was
produced by the resolution cascade (`findOfficerPosition`), or is the
fixed `Socio único` literal of the unipersonality path, or is a raw
proximity keyword; and the stored name passed the Spanish-name
validation at some regex state. -/
def officerProvenance (t : Terms) (o : Officer) : Prop :=
  ((∃ c, findOfficerPosition t c = some o.position) ∨
    o.position = str "Socio único" ∨ o.position ∈ positionKeywords) ∧
  (∃ li, (isValidSpanishNameS t o.name li).1 = true)

/-! # Claims -/

/-! ## C1: temporal resolution -/

/-- Inserting grows a list by one. -/
theorem insertByDate_length (e : TEvent) (l : List TEvent) :
    (insertByDate e l).length = l.length + 1 := by
  induction l with
  | nil => rfl
  | cons x xs ih =>
    by_cases h : strLexLe e.date x.date
    · simp [insertByDate, h]
    · simp [insertByDate, h, ih]

/-- The sort preserves length. -/
theorem sortEventsByDate_length (l : List TEvent) :
    (sortEventsByDate l).length = l.length := by
  induction l with
  | nil => rfl
  | cons e es ih => simp [sortEventsByDate, insertByDate_length, ih]

/-- The sort of a nonempty group is nonempty. -/
theorem sortEventsByDate_ne_nil {l : List TEvent} (h : l ≠ []) :
    sortEventsByDate l ≠ [] := by
  intro hc
  apply h
  have := sortEventsByDate_length l
  rw [hc] at this
  exact List.length_eq_zero.mp this.symm

/-- C1. Temporal resolution: folding a `normalizedName_position` group
in chronological order makes the final status active exactly when the
chronologically last event of the group is an appointment — however many
appointment/cessation oscillations precede it — and in the active case
the recorded `since` date (`latestActiveDate`) is the date of that last
appointment, which is the latest appointment of the group. -/
theorem c1_temporal_resolution (l : List TEvent)
    (hs : sortEventsByDate l ≠ []) :
    ((analyzeGroup l).isCurrentlyActive
      = ((sortEventsByDate l).getLast hs).category.isAppointment) ∧
    (((sortEventsByDate l).getLast hs).category.isAppointment = true →
      (analyzeGroup l).latestActiveDate
        = some ((sortEventsByDate l).getLast hs).date ∧
      (analyzeGroup l).latestAppointmentType
        = some ((sortEventsByDate l).getLast hs).category) := by
  have hdec := List.dropLast_append_getLast hs
  have hfold : analyzeGroup l
      = applyEvent (((sortEventsByDate l).dropLast).foldl applyEvent
          ⟨false, none, none⟩) ((sortEventsByDate l).getLast hs) := by
    unfold analyzeGroup
    conv_lhs => rw [← hdec]
    rw [List.foldl_append]
    rfl
  rw [hfold]
  cases hcat : ((sortEventsByDate l).getLast hs).category with
  | nombramientos => simp [applyEvent, hcat, OffCat.isAppointment]
  | reelecciones => simp [applyEvent, hcat, OffCat.isAppointment]
  | ceses_dimisiones =>
    simp [applyEvent, hcat, OffCat.isAppointment, OffCat.isCessation]
  | revocaciones =>
    simp [applyEvent, hcat, OffCat.isAppointment, OffCat.isCessation]

/-- C1 witness: the spec's Scenario 2 — appointment 2019-03-01,
cessation 2021-07-15, appointment 2023-01-10 for one name and position
resolve to an active status with `since` 2023-01-10. -/
theorem c1_temporal_resolution_witness :
    (analyzeGroup
      [⟨str "JUAN PEREZ", str "JUAN PEREZ", str "Administrador",
        str "2019-03-01", .nombramientos⟩,
       ⟨str "JUAN PEREZ", str "JUAN PEREZ", str "Administrador",
        str "2021-07-15", .ceses_dimisiones⟩,
       ⟨str "JUAN PEREZ", str "JUAN PEREZ", str "Administrador",
        str "2023-01-10", .nombramientos⟩]).isCurrentlyActive = true ∧
    (analyzeGroup
      [⟨str "JUAN PEREZ", str "JUAN PEREZ", str "Administrador",
        str "2019-03-01", .nombramientos⟩,
       ⟨str "JUAN PEREZ", str "JUAN PEREZ", str "Administrador",
        str "2021-07-15", .ceses_dimisiones⟩,
       ⟨str "JUAN PEREZ", str "JUAN PEREZ", str "Administrador",
        str "2023-01-10", .nombramientos⟩]).latestActiveDate
      = some (str "2023-01-10") := by
  have h : sortEventsByDate
      [⟨str "JUAN PEREZ", str "JUAN PEREZ", str "Administrador",
        str "2019-03-01", .nombramientos⟩,
       ⟨str "JUAN PEREZ", str "JUAN PEREZ", str "Administrador",
        str "2021-07-15", .ceses_dimisiones⟩,
       ⟨str "JUAN PEREZ", str "JUAN PEREZ", str "Administrador",
        str "2023-01-10", .nombramientos⟩] ≠ [] := by decide
  have hmain := c1_temporal_resolution
    [⟨str "JUAN PEREZ", str "JUAN PEREZ", str "Administrador",
      str "2019-03-01", .nombramientos⟩,
     ⟨str "JUAN PEREZ", str "JUAN PEREZ", str "Administrador",
      str "2021-07-15", .ceses_dimisiones⟩,
     ⟨str "JUAN PEREZ", str "JUAN PEREZ", str "Administrador",
      str "2023-01-10", .nombramientos⟩] h
  have hlast := List.getLast?_eq_getLast _ h
  rw [show (sortEventsByDate
      [⟨str "JUAN PEREZ", str "JUAN PEREZ", str "Administrador",
        str "2019-03-01", .nombramientos⟩,
       ⟨str "JUAN PEREZ", str "JUAN PEREZ", str "Administrador",
        str "2021-07-15", .ceses_dimisiones⟩,
       ⟨str "JUAN PEREZ", str "JUAN PEREZ", str "Administrador",
        str "2023-01-10", .nombramientos⟩]).getLast? =
      some ⟨str "JUAN PEREZ", str "JUAN PEREZ", str "Administrador",
        str "2023-01-10", .nombramientos⟩ from by decide] at hlast
  have hlast2 := Option.some_inj.mp hlast
  rw [← hlast2] at hmain
  have happ := hmain.2 (by decide)
  exact ⟨by rw [hmain.1]; decide, by rw [happ.1]⟩

/-! ## C2: the segmentation round trip -/

/-- C2. The protect-then-split-then-restore segmentation does not
reproduce protected occurrences when one protected span contains
another: in `S 1 , L 2 (29.08.25).` the date `29.08.25` is protected
first (placeholder 0) and the registry code containing it second
(placeholder 1); the restore loop walks the table in index order, so the
date placeholder reintroduced by restoring the registry code is never
restored, and the output section leaks the literal placeholder token
instead of the date. -/
theorem c2_guard_restore_loses_nested_date :
    smartSplitBormeEntry (str "S 1 , L 2 (29.08.25).") =
      [str "S 1 , L 2 (###PLACEHOLDER0###)."] ∧
    containsStr (str "S 1 , L 2 (29.08.25).") (str "29.08.25") = true ∧
    ((smartSplitBormeEntry (str "S 1 , L 2 (29.08.25).")).any
      (fun sec => containsStr sec (str "29.08.25"))) = false := by
  decide

/-! ## C7: the dissolution context window -/

/-- Every extracted corporate event is a vocabulary category that occurs
in the entry, and carries the context-window dissolution subtype exactly
when it is the `Disolución` event. -/
theorem mem_extractCorporateEvents {t : Terms} {e : Str} {ev : CorpEvent}
    (h : ev ∈ extractCorporateEvents t e) :
    ev.type ∈ t.alwaysTopLevel ∧ ciContains e ev.type = true ∧
    ev.dissolutionType = (if ev.type == str "Disolución" then
      some (dissolutionTypeOf (dissolutionContext e)) else none) := by
  unfold extractCorporateEvents at h
  by_cases hemp : e.isEmpty
  · simp [hemp] at h
  · simp only [hemp, Bool.false_eq_true, if_false] at h
    obtain ⟨a, ha, hf⟩ := List.mem_filterMap.mp h
    by_cases hskip : officerEventSkipList.contains a = true
    · rw [if_pos hskip] at hf
      exact absurd hf (by simp)
    · rw [if_neg hskip] at hf
      by_cases hci : ciContains e a = true
      · rw [if_pos hci] at hf
        obtain rfl := Option.some_inj.mp hf
        exact ⟨ha, hci, rfl⟩
      · rw [if_neg hci] at hf
        exact absurd hf (by simp)

/-- A `Disolución` mention puts the dissolution event (with its
context-window subtype) among the extracted events. -/
theorem dissolution_event_mem {t : Terms} {e : Str}
    (h1 : str "Disolución" ∈ t.alwaysTopLevel)
    (h2 : ciContains e (str "Disolución") = true) :
    (⟨str "Disolución",
      some (dissolutionTypeOf (dissolutionContext e))⟩ : CorpEvent) ∈
      extractCorporateEvents t e := by
  have hne : e ≠ [] := by
    intro he
    rw [he] at h2
    simp [ciContains, str] at h2
  have hemp : e.isEmpty = false := by simpa using hne
  unfold extractCorporateEvents
  simp only [hemp, Bool.false_eq_true, if_false]
  refine List.mem_filterMap.mpr ⟨str "Disolución", h1, ?_⟩
  rw [if_neg (by decide), if_pos h2]
  simp

/-- C7 counterexample: in
`Disolución. Por acuerdo de la junta. voluntaria` the word `voluntaria`
appears within 150 characters after the `Disolución` mention, yet the
derived status is plain `dissolved`, not `dissolved_voluntary` — the
capture `[^.]{0,150}` stops at the first period, so the window is not
the full 150 characters the claim describes. -/
theorem c7_counterexample :
    ciContains
      (((str "Disolución. Por acuerdo de la junta. voluntaria").drop
        ((ciIndexOf (str "Disolución. Por acuerdo de la junta. voluntaria")
          (str "Disolución")).getD 0 + (str "Disolución").length)).take 150)
      (str "voluntaria") = true ∧
    getCompanyStatusFromEvents
      (extractCorporateEvents termsJson
        (str "Disolución. Por acuerdo de la junta. voluntaria")) =
      str "dissolved" ∧
    getCompanyStatusFromEvents
      (extractCorporateEvents termsJson
        (str "Disolución. Por acuerdo de la junta. voluntaria")) ≠
      str "dissolved_voluntary" := by
  refine ⟨by decide, by decide, by decide⟩

/-- C7 (amended). The dissolution subtype is determined only from the
capture window after the first `Disolución` mention — the run of
periods, colons and whitespace is skipped, then at most 150 characters
are taken stopping before the next period — and never from the rest of
the entry: when the vocabulary lists `Disolución`, the entry mentions it,
no `Extinción` appears anywhere, and `voluntaria` occurs in that window,
the derived status is `dissolved_voluntary` regardless of any other
lifecycle-adjacent words elsewhere in the entry. -/
theorem c7_dissolution_window_amended (t : Terms) (e : Str)
    (h1 : str "Disolución" ∈ t.alwaysTopLevel)
    (h2 : ciContains e (str "Disolución") = true)
    (h3 : ciContains e (str "Extinción") = false)
    (h4 : ciContains (dissolutionContext e) (str "voluntaria") = true) :
    getCompanyStatusFromEvents (extractCorporateEvents t e) =
      str "dissolved_voluntary" := by
  have hvol : dissolutionTypeOf (dissolutionContext e) = .voluntary := by
    unfold dissolutionTypeOf
    rw [h4]
    rfl
  have hmem := dissolution_event_mem h1 h2
  have hne : extractCorporateEvents t e ≠ [] :=
    List.ne_nil_of_mem hmem
  have hemp : (extractCorporateEvents t e).isEmpty = false := by
    simpa using hne
  have hext : (extractCorporateEvents t e).any
      (fun ev => ev.type == str "Extinción") = false := by
    cases hx : (extractCorporateEvents t e).any
        (fun ev => ev.type == str "Extinción")
    · rfl
    · exfalso
      obtain ⟨ev, hevm, hevt⟩ := List.any_eq_true.mp hx
      have := (mem_extractCorporateEvents hevm).2.1
      rw [eq_of_beq hevt] at this
      rw [this] at h3
      exact absurd h3 (by simp)
  have hdis : (extractCorporateEvents t e).any
      (fun ev => ev.type == str "Disolución") = true :=
    List.any_eq_true.mpr ⟨_, hmem, by simp⟩
  have hfind : ∃ ev0, (extractCorporateEvents t e).find?
      (fun ev => ev.type == str "Disolución") = some ev0 := by
    have : ((extractCorporateEvents t e).find?
        (fun ev => ev.type == str "Disolución")).isSome := by
      rw [List.find?_isSome]
      exact ⟨_, hmem, by simp⟩
    exact Option.isSome_iff_exists.mp this
  obtain ⟨ev0, hev0⟩ := hfind
  have hev0p := List.find?_some hev0
  have hev0m := List.mem_of_find?_eq_some hev0
  have hev0t : ev0.type = str "Disolución" := eq_of_beq hev0p
  have hev0d : ev0.dissolutionType =
      some (dissolutionTypeOf (dissolutionContext e)) := by
    have := (mem_extractCorporateEvents hev0m).2.2
    rwa [hev0t, if_pos (by simp)] at this
  unfold getCompanyStatusFromEvents
  simp [hemp, hext, hdis, hev0, hev0d, hvol]

/-- C7 witness: on `Disolución voluntaria de la sociedad` with the
modelled vocabulary, the amended window rule yields the
`dissolved_voluntary` status. -/
theorem c7_dissolution_window_witness :
    getCompanyStatusFromEvents
      (extractCorporateEvents termsJson
        (str "Disolución voluntaria de la sociedad")) =
      str "dissolved_voluntary" :=
  c7_dissolution_window_amended termsJson
    (str "Disolución voluntaria de la sociedad")
    (by decide) (by decide) (by decide) (by decide)

/-! ## C10: Spanish date formatting -/

/-- A digit is not whitespace. -/
theorem digit_not_ws {c : Char} (h : isDigitChar c = true) :
    isJsWs c = false := by
  cases hw : isJsWs c
  · rfl
  · exfalso
    simp only [isJsWs, Bool.or_eq_true, beq_iff_eq] at hw
    have hx : c = ' ' ∨ c = '\t' ∨ c = '\n' ∨ c = '\r' ∨
        c = '\x0b' ∨ c = '\x0c' ∨ c = '\xA0' := by tauto
    rcases hx with rfl | rfl | rfl | rfl | rfl | rfl | rfl <;>
      exact absurd h (by decide)

/-- A digit is not a sign character. -/
theorem digit_not_sign {c : Char} (h : isDigitChar c = true) :
    c ≠ '-' ∧ c ≠ '+' :=
  ⟨fun he => absurd (he ▸ h) (by decide),
   fun he => absurd (he ▸ h) (by decide)⟩

/-- An all-digit nonempty string parses to its digit value. -/
theorem jsParseInt_digits (y : Str) (hne : y ≠ [])
    (hd : y.all isDigitChar = true) :
    jsParseInt y = some (digitsVal y : Int) := by
  obtain ⟨a, t, rfl⟩ := List.exists_cons_of_ne_nil hne
  have ha : isDigitChar a = true := by
    simp only [List.all_cons, Bool.and_eq_true] at hd
    exact hd.1
  have hws := digit_not_ws ha
  have hsign := digit_not_sign ha
  have hdw : List.dropWhile isJsWs (a :: t) = a :: t := by
    simp [List.dropWhile, hws]
  have htw : List.takeWhile isDigitChar (a :: t) = a :: t :=
    List.takeWhile_eq_self_iff.mpr (List.all_eq_true.mp hd)
  unfold jsParseInt
  rw [hdw]
  simp [hsign.1, hsign.2, htw]

/-- C10. Date formatting: an input splitting into exactly three
components on periods, slashes and dashes maps to
`year-month-day` with the month and day zero-padded to two digits and
the year pivoted; the pivot expands a numeric two-digit year `yy` to
`20yy` when its value is below fifty and `19yy` otherwise; an input not
splitting into three components is returned unchanged; null and the
empty string map to null. -/
theorem c10_format_spanish_date :
    (∀ (s d m y : Str), splitAny isDateDelim s = [d, m, y] →
      formatSpanishDate (some s) =
        some (expandYear y ++ str "-" ++ padStart2 m ++ str "-" ++
          padStart2 d)) ∧
    (∀ (y : Str), y.length = 2 → y.all isDigitChar = true →
      (digitsVal y < 50 → expandYear y = str "20" ++ y) ∧
      (50 ≤ digitsVal y → expandYear y = str "19" ++ y)) ∧
    (∀ (s : Str), (splitAny isDateDelim s).length ≠ 3 →
      formatSpanishDate (some s) = if s.isEmpty then none else some s) ∧
    formatSpanishDate none = none ∧
    formatSpanishDate (some []) = none := by
  refine ⟨?_, ?_, ?_, rfl, rfl⟩
  · intro s d m y h
    have hne : s ≠ [] := by
      intro he
      subst he
      simp [splitAny] at h
    have hemp : s.isEmpty = false := by
      simpa using hne
    simp [formatSpanishDate, hemp, formatSpanishDateCore, h]
  · intro y hlen hdig
    have hne : y ≠ [] := by
      intro he
      subst he
      simp at hlen
    have hp := jsParseInt_digits y hne hdig
    have hl2 : (y.length == 2) = true := by simp [hlen]
    constructor
    · intro hlt
      simp only [expandYear, hl2, if_true, hp]
      have : ((digitsVal y : Int) < 50) := by exact_mod_cast hlt
      simp [this]
    · intro hge
      simp only [expandYear, hl2, if_true, hp]
      have hfalse : ¬((digitsVal y : Int) < 50) :=
        not_lt.mpr (by exact_mod_cast hge)
      simp [hfalse]
  · intro s hlen
    by_cases he : s.isEmpty
    · simp [formatSpanishDate, he]
    · simp only [formatSpanishDate, he, if_false]
      congr 1
      unfold formatSpanishDateCore
      split
      · rename_i day month year harm
        rw [harm] at hlen
        simp at hlen
      · rfl

/-- C10 witness: `29.08.25` formats to `2025-08-29` (two-digit year
below fifty) and `1/2/75` to `1975-02-01` (two-digit year at least
fifty, single-digit day and month padded). -/
theorem c10_format_spanish_date_witness :
    formatSpanishDate (some (str "29.08.25")) = some (str "2025-08-29") ∧
    formatSpanishDate (some (str "1/2/75")) = some (str "1975-02-01") := by
  constructor
  · have h := c10_format_spanish_date.1 (str "29.08.25") (str "29")
      (str "08") (str "25") (by decide)
    rw [h]
    decide
  · have h := c10_format_spanish_date.1 (str "1/2/75") (str "1")
      (str "2") (str "75") (by decide)
    rw [h]
    decide

/-! ## C3: the strategy chain -/

/-- C3 counterexample: on the entry
`Nombramientos. Liquidador: CARLOS RUIZ SOTO. Declaración de
unipersonalidad. Socio único: MARIA LOPEZ RUIZ.` the inline-pattern
strategy is invoked (first, not second) and produces two officer events
even though the category-structured strategy also produces one — both
passes always run and their results are merged, so a strategy is not
invoked only when all previously tried strategies produced zero events,
contrary to the claim. -/
theorem c3_counterexample :
    invokedStrategiesS termsJson
      (str "Nombramientos. Liquidador: CARLOS RUIZ SOTO. Declaración de unipersonalidad. Socio único: MARIA LOPEZ RUIZ.")
      0 = [.inlinePattern, .categoryStructured] ∧
    getTotalOfficers
      (extractInlineOfficerCategoriesS termsJson
        (str "Nombramientos. Liquidador: CARLOS RUIZ SOTO. Declaración de unipersonalidad. Socio único: MARIA LOPEZ RUIZ.")
        0).1.1 = 2 ∧
    getTotalOfficers
      (sectionPassS termsJson
        (smartSplitBormeEntry
          (str "Nombramientos. Liquidador: CARLOS RUIZ SOTO. Declaración de unipersonalidad. Socio único: MARIA LOPEZ RUIZ."))
        (extractInlineOfficerCategoriesS termsJson
          (str "Nombramientos. Liquidador: CARLOS RUIZ SOTO. Declaración de unipersonalidad. Socio único: MARIA LOPEZ RUIZ.")
          0).1.2
        (extractInlineOfficerCategoriesS termsJson
          (str "Nombramientos. Liquidador: CARLOS RUIZ SOTO. Declaración de unipersonalidad. Socio único: MARIA LOPEZ RUIZ.")
          0).2).1.1 = 1 := by
  decide

/-- C3 (amended). The extractor is a chain of four strategies in the
fixed order inline-pattern, category-structured, direct-pattern,
name-proximity; the first two always run (their results merged with
per-category dedup, the section pass skipping categories the inline
pass recorded), the direct-pattern strategy runs exactly when the first
two produced zero officer events, and name-proximity exactly when the
direct pass also left zero. -/
theorem c3_strategy_chain_amended (t : Terms) (e : Str) (li : Nat) :
    ((invokedStrategiesS t e li).contains .inlinePattern = true) ∧
    ((invokedStrategiesS t e li).contains .categoryStructured = true) ∧
    ((invokedStrategiesS t e li).contains .directPattern = true ↔
      getTotalOfficers (extractByCategoriesS t e li).1.1 = 0) ∧
    ((invokedStrategiesS t e li).contains .nameProximity = true ↔
      (getTotalOfficers (extractByCategoriesS t e li).1.1 = 0 ∧
        getTotalOfficers ((extractByCategoriesS t e li).1.1.push .nom
          (extractByDirectPatternsS t e
            (extractByCategoriesS t e li).2).1) = 0)) ∧
    ((extractByCategoriesS t e li).1.1 = deduplicateOfficers ⟨
      (extractInlineOfficerCategoriesS t e li).1.1.nombramientos ++
        (sectionPassS t (smartSplitBormeEntry e)
          (extractInlineOfficerCategoriesS t e li).1.2
          (extractInlineOfficerCategoriesS t e li).2).1.1.nombramientos,
      (extractInlineOfficerCategoriesS t e li).1.1.reelecciones ++
        (sectionPassS t (smartSplitBormeEntry e)
          (extractInlineOfficerCategoriesS t e li).1.2
          (extractInlineOfficerCategoriesS t e li).2).1.1.reelecciones,
      (extractInlineOfficerCategoriesS t e li).1.1.revocaciones ++
        (sectionPassS t (smartSplitBormeEntry e)
          (extractInlineOfficerCategoriesS t e li).1.2
          (extractInlineOfficerCategoriesS t e li).2).1.1.revocaciones,
      (extractInlineOfficerCategoriesS t e li).1.1.ceses_dimisiones ++
        (sectionPassS t (smartSplitBormeEntry e)
          (extractInlineOfficerCategoriesS t e li).1.2
          (extractInlineOfficerCategoriesS t e li).2).1.1.ceses_dimisiones⟩) := by
  refine ⟨?_, ?_, ?_, ?_, rfl⟩ <;>
    · unfold invokedStrategiesS
      by_cases h1 : getTotalOfficers (extractByCategoriesS t e li).1.1 == 0
      · by_cases h2 : getTotalOfficers
            ((extractByCategoriesS t e li).1.1.push .nom
              (extractByDirectPatternsS t e
                (extractByCategoriesS t e li).2).1) == 0 <;>
          simp_all [List.contains, beq_iff_eq]
      · simp_all [List.contains, beq_iff_eq]

/-! ## C4: behaviour on malformed input -/

/-- C4 counterexample: calling `parseSpanishCompanyData(null)` throws a
`TypeError` on the unguarded property read `rawData.full_entry`
(line 1870), so the entry point does raise on null, contrary to the
claim. -/
theorem c4_counterexample :
    parseSpanishCompanyDataJs termsJson .null 0 = .error .typeErr := rfl

/-- C4 (amended). `parseBormeEntry` never raises: null and the empty
string return the documented empty structure (empty officers, no
registry data, no categories). `parseSpanishCompanyData` never raises
for object or string inputs and returns the empty default structure
(empty officer lists, no corporate events, no status) when every text
and detail field is missing; only a null argument makes it throw. -/
theorem c4_never_throws_amended :
    (∀ (t : Terms) (raw : RawData) (li : Nat),
      ∃ r, parseSpanishCompanyDataJs t (.obj raw) li = .ok r) ∧
    (∀ (t : Terms) (s : Str) (li : Nat),
      ∃ r, parseSpanishCompanyDataJs t (.strVal s) li = .ok r) ∧
    (∀ (t : Terms) (li : Nat),
      parseBormeEntryS t none li = (⟨.inl [], none, [], none⟩, li) ∧
      parseBormeEntryS t (some []) li = (⟨.inl [], none, [], none⟩, li)) ∧
    (∀ (t : Terms) (li : Nat),
      (parseSpanishCompanyDataS t RawData.empty li).1 =
        ⟨OfficersByCat.empty, none, [], none, str "enhanced"⟩) := by
  refine ⟨fun t raw li => ⟨_, rfl⟩, fun t s li => ⟨_, rfl⟩,
    fun t li => ⟨rfl, rfl⟩, fun t li => rfl⟩

/-! ## C5: determinism despite the shared global-flag regex -/

/-- `parseBormeEntry` on a truthy entry is fully independent of the
incoming `lastIndex`: its first use of the shared regex is
`fullEntry.match(...)`, which resets `lastIndex` to zero. -/
theorem parseBormeEntryS_state_indep (t : Terms) (e : Str) (he : e ≠ [])
    (li : Nat) :
    parseBormeEntryS t (some e) li = parseBormeEntryS t (some e) 0 := by
  have hemp : e.isEmpty = false := by simpa using he
  simp only [parseBormeEntryS, hemp]
  rfl

/-- Step 2 only transforms the result and passes the state through. -/
theorem pscStep2_shape (raw : RawData) (p : ParseResult) (a : Nat) :
    (pscStep2 raw (p, a)).2 = a ∧
    ∀ b, (pscStep2 raw (p, a)).1 = (pscStep2 raw (p, b)).1 := by
  unfold pscStep2
  cases raw.parsed_details with
  | none => exact ⟨rfl, fun b => rfl⟩
  | some pd =>
    by_cases h : getTotalOfficers p.officers == 0 <;>
      simp [h]

/-- Step 1 produces the same result for every incoming `lastIndex`. -/
theorem pscStep1_fst_indep (t : Terms) (raw : RawData) (li : Nat) :
    (pscStep1 t raw li).1 = (pscStep1 t raw 0).1 := by
  unfold pscStep1
  by_cases h : truthyStr raw.full_entry
  · cases hfe : raw.full_entry with
    | none => rw [hfe] at h; exact absurd h (by simp [truthyStr])
    | some e =>
      rw [hfe] at h
      have he : e ≠ [] := by
        simp only [truthyStr, Bool.not_eq_true'] at h
        simpa using h
      simp only [h, if_true, parseBormeEntryS_state_indep t e he li]
  · simp [h]

/-- C5. Idempotence and determinism of the parse: the structured output
of `parseSpanishCompanyData` does not depend on the incoming
`lastIndex` of the shared global-flag `registryPattern`, because the
entry parse begins with a `String.prototype.match` that resets it; in
particular two successive invocations on the same parser with the same
input — the second starting from whatever `lastIndex` the first left
behind — produce identical structured output. -/
theorem c5_parse_deterministic (t : Terms) (raw : RawData) (li : Nat) :
    ((parseSpanishCompanyDataS t raw li).1 =
      (parseSpanishCompanyDataS t raw 0).1) ∧
    ((parseSpanishCompanyDataS t raw
        (parseSpanishCompanyDataS t raw li).2).1 =
      (parseSpanishCompanyDataS t raw li).1) := by
  have key : ∀ a : Nat, (parseSpanishCompanyDataS t raw a).1 =
      (parseSpanishCompanyDataS t raw 0).1 := by
    intro a
    unfold parseSpanishCompanyDataS
    have h1 := pscStep1_fst_indep t raw a
    obtain ⟨p1, s1a, hs1a⟩ : ∃ p s, pscStep1 t raw a = (p, s) :=
      ⟨_, _, rfl⟩
    obtain ⟨p1z, s1z, hs1z⟩ : ∃ p s, pscStep1 t raw 0 = (p, s) :=
      ⟨_, _, rfl⟩
    rw [hs1a, hs1z] at h1
    simp only at h1
    subst h1
    rw [hs1a, hs1z]
    have h2a := pscStep2_shape raw p1 s1a
    have h2z := pscStep2_shape raw p1 s1z
    have hfst : (pscStep2 raw (p1, s1a)).1 = (pscStep2 raw (p1, s1z)).1 :=
      h2a.2 s1z
    by_cases hc : (!(pscText raw).isEmpty &&
        getTotalOfficers (pscStep2 raw (p1, s1a)).1.officers == 0) = true
    · have hcz : (!(pscText raw).isEmpty &&
          getTotalOfficers (pscStep2 raw (p1, s1z)).1.officers == 0)
            = true := by
        rw [← hfst]
        exact hc
      have hne : pscText raw ≠ [] := by
        intro he
        rw [he] at hc
        simp at hc
      rw [if_pos hc, if_pos hcz, hfst,
        parseBormeEntryS_state_indep t (pscText raw) hne
          (pscStep2 raw (p1, s1a)).2,
        parseBormeEntryS_state_indep t (pscText raw) hne
          (pscStep2 raw (p1, s1z)).2]
    · have hcz : ¬((!(pscText raw).isEmpty &&
          getTotalOfficers (pscStep2 raw (p1, s1z)).1.officers == 0)
            = true) := by
        rw [← hfst]
        exact hc
      rw [if_neg hc, if_neg hcz, hfst]
  exact ⟨key li, (key _).trans (key li).symm⟩

/-! ## Provenance lemmas shared by the position and name invariants -/

/-- Names surviving the shared filter were validated. -/
theorem mem_filterValidNamesS {t : Terms} {names : List Str} {li : Nat}
    {n : Str} (h : n ∈ (filterValidNamesS t names li).1) :
    ∃ li2, (isValidSpanishNameS t n li2).1 = true := by
  induction names generalizing li with
  | nil => simp [filterValidNamesS] at h
  | cons x xs ih =>
    unfold filterValidNamesS at h
    by_cases h1 : (x.isEmpty || decide (x.length ≤ 2)) = true
    · rw [if_pos h1] at h
      exact ih h
    · rw [if_neg h1] at h
      by_cases h2 : (isValidSpanishNameS t x li).1 = true
      · rw [if_pos h2] at h
        rcases List.mem_cons.mp h with rfl | hm
        · exact ⟨li, h2⟩
        · exact ih hm
      · rw [if_neg h2] at h
        exact ih h

/-- Membership across a category push. -/
theorem mem_push_all {off : OfficersByCat} {k : CatKey}
    {xs : List Officer} {o : Officer}
    (h : o ∈ (off.push k xs).all) : o ∈ off.all ∨ o ∈ xs := by
  cases k <;>
    · simp only [OfficersByCat.push, OfficersByCat.all,
        List.mem_append] at h ⊢
      tauto

/-- Deduplication only removes officers. -/
theorem mem_dedupOfficerList {seen : List Str} {l : List Officer}
    {o : Officer} (h : o ∈ dedupOfficerList seen l) : o ∈ l := by
  induction l generalizing seen with
  | nil => simp [dedupOfficerList] at h
  | cons x xs ih =>
    unfold dedupOfficerList at h
    by_cases hs : seen.contains (officerDedupKey x) = true
    · rw [if_pos hs] at h
      exact List.mem_cons_of_mem _ (ih h)
    · rw [if_neg hs] at h
      rcases List.mem_cons.mp h with rfl | hm
      · exact List.mem_cons_self _ _
      · exact List.mem_cons_of_mem _ (ih hm)

/-- Deduplicated officers come from the original object. -/
theorem mem_deduplicateOfficers {off : OfficersByCat} {o : Officer}
    (h : o ∈ (deduplicateOfficers off).all) : o ∈ off.all := by
  simp only [deduplicateOfficers, OfficersByCat.all,
    List.mem_append] at h ⊢
  rcases h with ((h | h) | h) | h
  · exact Or.inl (Or.inl (Or.inl (mem_dedupOfficerList h)))
  · exact Or.inl (Or.inl (Or.inr (mem_dedupOfficerList h)))
  · exact Or.inl (Or.inr (mem_dedupOfficerList h))
  · exact Or.inr (mem_dedupOfficerList h)

/-- Officers of a single `Position: Names` section carry the resolved
position and a validated name. -/
theorem parseOfficersFromSectionS_prov {t : Terms} {sec category : Str}
    {li : Nat} {o : Officer}
    (h : o ∈ (parseOfficersFromSectionS t sec category li).1) :
    (∃ c, findOfficerPosition t c = some o.position) ∧
    (∃ li2, (isValidSpanishNameS t o.name li2).1 = true) := by
  unfold parseOfficersFromSectionS at h
  cases hcolon : indexOfChar sec ':' with
  | none => rw [hcolon] at h; simp at h
  | some colonIndex =>
    rw [hcolon] at h
    simp only at h
    cases hfind : findOfficerPosition t (trimJs (sec.take colonIndex)) with
    | none => rw [hfind] at h; simp at h
    | some op =>
      rw [hfind] at h
      simp only at h
      by_cases hemp : (trimJs (sec.drop (colonIndex + 1))).isEmpty = true
      · rw [if_pos hemp] at h; simp at h
      · rw [if_neg hemp] at h
        have hgo : ∀ (names : List Str) (li3 : Nat),
            o ∈ (parseOfficersFromSectionS.go t sec category op names
              li3).1 →
            o.position = op ∧
            (∃ li2, (isValidSpanishNameS t o.name li2).1 = true) := by
          intro names
          induction names with
          | nil => intro li3 hgo; simp [parseOfficersFromSectionS.go] at hgo
          | cons n ns ihn =>
            intro li3 hgo
            unfold parseOfficersFromSectionS.go at hgo
            by_cases hv : (isValidSpanishNameS t n li3).1 = true
            · rw [if_pos hv] at hgo
              rcases List.mem_cons.mp hgo with rfl | hm
              · exact ⟨rfl, ⟨li3, hv⟩⟩
              · exact ihn _ hm
            · rw [if_neg hv] at hgo
              exact ihn _ hgo
        obtain ⟨hpos, hname⟩ := hgo _ _ h
        exact ⟨⟨trimJs (sec.take colonIndex), by rw [hfind, hpos]⟩, hname⟩

/-- Officers of the post-header section walk carry the resolved position
and a validated name. -/
theorem parseOfficersFromSectionsS_prov {t : Terms} {sections : List Str}
    {startIndex : Nat} {category : Str} {li : Nat} {o : Officer}
    (h : o ∈ (parseOfficersFromSectionsS t sections startIndex category
      li).1) :
    (∃ c, findOfficerPosition t c = some o.position) ∧
    (∃ li2, (isValidSpanishNameS t o.name li2).1 = true) := by
  unfold parseOfficersFromSectionsS at h
  have hgo : ∀ (secs : List Str) (b li3 : Nat),
      o ∈ (parseOfficersFromSectionsS.go t category secs b li3).1 →
      (∃ c, findOfficerPosition t c = some o.position) ∧
      (∃ li2, (isValidSpanishNameS t o.name li2).1 = true) := by
    intro secs
    induction secs with
    | nil =>
      intro b li3 hgo
      simp [parseOfficersFromSectionsS.go] at hgo
    | cons sec rest ihs =>
      intro b li3 hgo
      cases b with
      | zero => simp [parseOfficersFromSectionsS.go] at hgo
      | succ b2 =>
        unfold parseOfficersFromSectionsS.go at hgo
        by_cases hr : (registryTestS sec li3).1 = true
        · rw [if_pos hr] at hgo; simp at hgo
        · rw [if_neg hr] at hgo
          by_cases hcat : (findTopLevelCategory t sec).isSome = true
          · rw [if_pos hcat] at hgo; simp at hgo
          · rw [if_neg hcat] at hgo
            simp only [List.mem_append] at hgo
            rcases hgo with hm | hm
            · exact parseOfficersFromSectionS_prov hm
            · exact ihs _ _ hm
  exact hgo _ _ _ h

/-- Socio-único officers carry the fixed literal position and a
validated name. -/
theorem parseSocioUnicoFromSectionsS_prov {t : Terms}
    {sections : List Str} {startIndex li : Nat} {o : Officer}
    (h : o ∈ (parseSocioUnicoFromSectionsS t sections startIndex li).1) :
    o.position = str "Socio único" ∧
    (∃ li2, (isValidSpanishNameS t o.name li2).1 = true) := by
  unfold parseSocioUnicoFromSectionsS at h
  have htry : ∀ (sec : Str) (ps : List Bool) (li3 : Nat) (o2 : Officer),
      (parseSocioUnicoFromSectionsS.tryPatterns t sec ps li3).1 = some o2 →
      o2.position = str "Socio único" ∧
      (∃ li2, (isValidSpanishNameS t o2.name li2).1 = true) := by
    intro sec ps
    induction ps with
    | nil =>
      intro li3 o2 ht
      simp [parseSocioUnicoFromSectionsS.tryPatterns] at ht
    | cons p pr ihp =>
      intro li3 o2 ht
      unfold parseSocioUnicoFromSectionsS.tryPatterns at ht
      cases hcap : socioCapture p sec with
      | none =>
        rw [hcap] at ht
        exact ihp _ _ ht
      | some cap =>
        rw [hcap] at ht
        simp only at ht
        by_cases h1 : ((cleanOfficerName cap).isEmpty ||
            decide ((cleanOfficerName cap).length ≤ 2)) = true
        · rw [if_pos h1] at ht
          exact ihp _ _ ht
        · rw [if_neg h1] at ht
          by_cases h2 : (isValidSpanishNameS t (cleanOfficerName cap)
              li3).1 = true
          · rw [if_pos h2] at ht
            obtain rfl := Option.some_inj.mp ht.symm
            exact ⟨rfl, ⟨li3, h2⟩⟩
          · rw [if_neg h2] at ht
            exact ihp _ _ ht
  have hgo : ∀ (secs : List Str) (b li3 : Nat),
      o ∈ (parseSocioUnicoFromSectionsS.go t secs b li3).1 →
      o.position = str "Socio único" ∧
      (∃ li2, (isValidSpanishNameS t o.name li2).1 = true) := by
    intro secs
    induction secs with
    | nil =>
      intro b li3 hgo
      simp [parseSocioUnicoFromSectionsS.go] at hgo
    | cons sec rest ihs =>
      intro b li3 hgo
      cases b with
      | zero => simp [parseSocioUnicoFromSectionsS.go] at hgo
      | succ b2 =>
        unfold parseSocioUnicoFromSectionsS.go at hgo
        by_cases hr : (registryTestS sec li3).1 = true
        · rw [if_pos hr] at hgo; simp at hgo
        · rw [if_neg hr] at hgo
          by_cases hcat : (findTopLevelCategory t sec).isSome = true
          · rw [if_pos hcat] at hgo; simp at hgo
          · rw [if_neg hcat] at hgo
            cases htp : (parseSocioUnicoFromSectionsS.tryPatterns t sec
                [true, false] (registryTestS sec li3).2) with
            | mk fst snd =>
              rw [htp] at hgo
              cases fst with
              | some o2 =>
                simp only at hgo
                rcases List.mem_singleton.mp hgo with rfl
                exact htry _ _ _ _ (by rw [htp])
              | none =>
                simp only at hgo
                by_cases hb : (b2 + 1 == 5) = true
                · rw [if_pos hb] at hgo
                  by_cases hpe : (cleanOfficerName sec).isEmpty = true
                  · rw [if_pos hpe] at hgo
                    exact ihs _ _ hgo
                  · rw [if_neg hpe] at hgo
                    by_cases hv : ((isValidSpanishNameS t
                        (cleanOfficerName sec) snd).1 &&
                        !(findTopLevelCategory t sec).isSome) = true
                    · rw [if_pos hv] at hgo
                      by_cases hr2 : (registryTestS sec
                          (isValidSpanishNameS t (cleanOfficerName sec)
                            snd).2).1 = true
                      · rw [if_neg (by simp [hr2])] at hgo
                        exact ihs _ _ hgo
                      · rw [if_pos (by simp [hr2])] at hgo
                        rcases List.mem_singleton.mp hgo with rfl
                        refine ⟨rfl, ⟨snd, ?_⟩⟩
                        simp only [Bool.and_eq_true] at hv
                        exact hv.1
                    · rw [if_neg hv] at hgo
                      exact ihs _ _ hgo
                · rw [if_neg hb] at hgo
                  exact ihs _ _ hgo
  exact hgo _ _ _ h

/-- Inline-fallback officers carry the resolved position and a validated
name. -/
theorem parseOfficersFromInlineContentFallbackS_prov {t : Terms}
    {content category : Str} {li : Nat} {o : Officer}
    (h : o ∈ (parseOfficersFromInlineContentFallbackS t content category
      li).1) :
    (∃ c, findOfficerPosition t c = some o.position) ∧
    (∃ li2, (isValidSpanishNameS t o.name li2).1 = true) := by
  unfold parseOfficersFromInlineContentFallbackS at h
  have hgo : ∀ (parts : List Str) (li3 : Nat),
      o ∈ (parseOfficersFromInlineContentFallbackS.go t category parts
        li3).1 →
      (∃ c, findOfficerPosition t c = some o.position) ∧
      (∃ li2, (isValidSpanishNameS t o.name li2).1 = true) := by
    intro parts
    induction parts with
    | nil =>
      intro li3 hgo
      simp [parseOfficersFromInlineContentFallbackS.go] at hgo
    | cons part ps ihp =>
      intro li3 hgo
      unfold parseOfficersFromInlineContentFallbackS.go at hgo
      by_cases hr : (registryTestS part li3).1 = true
      · rw [if_pos hr] at hgo
        exact ihp _ hgo
      · rw [if_neg hr] at hgo
        cases hcolon : indexOfChar part ':' with
        | none =>
          rw [hcolon] at hgo
          exact ihp _ hgo
        | some colonIndex =>
          rw [hcolon] at hgo
          simp only at hgo
          by_cases hc0 : (colonIndex == 0) = true
          · rw [if_pos hc0] at hgo
            exact ihp _ hgo
          · rw [if_neg hc0] at hgo
            cases hfind : findOfficerPosition t
                (trimJs (part.take colonIndex)) with
            | none =>
              rw [hfind] at hgo
              exact ihp _ hgo
            | some op =>
              rw [hfind] at hgo
              simp only at hgo
              by_cases hbe : ((trimJs (part.drop
                  (colonIndex + 1))).isEmpty ||
                  isBusinessActivityDescription (trimJs (part.drop
                    (colonIndex + 1)))) = true
              · rw [if_pos hbe] at hgo
                exact ihp _ hgo
              · rw [if_neg hbe] at hgo
                simp only [List.mem_append] at hgo
                rcases hgo with hm | hm
                · obtain ⟨n, hn, rfl⟩ := List.mem_map.mp hm
                  exact ⟨⟨trimJs (part.take colonIndex), by rw [hfind]⟩,
                    mem_filterValidNamesS hn⟩
                · exact ihp _ hm
  exact hgo _ _ h

/-- Inline-content officers satisfy the provenance invariant. -/
theorem parseOfficersFromInlineContentS_prov {t : Terms}
    {content category : Str} {li : Nat} {o : Officer}
    (h : o ∈ (parseOfficersFromInlineContentS t content category li).1) :
    officerProvenance t o := by
  unfold parseOfficersFromInlineContentS at h
  have hgm : ∀ (pos : Str) (caps : List Str) (li3 : Nat) (o2 : Officer),
      o2 ∈ (parseOfficersFromInlineContentS.goMatches t category pos caps
        li3).1 →
      officerProvenance t o2 := by
    intro pos caps
    induction caps with
    | nil =>
      intro li3 o2 hm
      simp [parseOfficersFromInlineContentS.goMatches] at hm
    | cons cap cs ih =>
      intro li3 o2 hm
      unfold parseOfficersFromInlineContentS.goMatches at hm
      by_cases h1 : ((trimJs cap).isEmpty ||
          isBusinessActivityDescription (trimJs cap)) = true
      · rw [if_pos h1] at hm
        exact ih _ _ hm
      · rw [if_neg h1] at hm
        cases hfind : findOfficerPosition t pos with
        | none =>
          rw [hfind] at hm
          exact ih _ _ hm
        | some op =>
          rw [hfind] at hm
          simp only [List.mem_append] at hm
          rcases hm with hm | hm
          · obtain ⟨n, hn, rfl⟩ := List.mem_map.mp hm
            exact ⟨Or.inl ⟨pos, by rw [hfind]⟩, mem_filterValidNamesS hn⟩
          · exact ih _ _ hm
  have hgp : ∀ (ps : List Str) (li3 : Nat),
      o ∈ (parseOfficersFromInlineContentS.goPositions t category
        (trimJs (collapseWs content)) ps li3).1 →
      officerProvenance t o := by
    intro ps
    induction ps with
    | nil =>
      intro li3 hp
      simp [parseOfficersFromInlineContentS.goPositions] at hp
    | cons p pr ih =>
      intro li3 hp
      unfold parseOfficersFromInlineContentS.goPositions at hp
      simp only [List.mem_append] at hp
      rcases hp with hp | hp
      · exact hgm _ _ _ _ hp
      · exact ih _ hp
  by_cases he : (parseOfficersFromInlineContentS.goPositions t category
      (trimJs (collapseWs content)) t.officersPositions li).1.isEmpty =
      true
  · rw [if_pos he] at h
    have hp := parseOfficersFromInlineContentFallbackS_prov h
    exact ⟨Or.inl hp.1, hp.2⟩
  · rw [if_neg he] at h
    exact hgp _ _ h

/-- Inline-category officers satisfy the provenance invariant. -/
theorem extractInlineOfficerCategoriesS_prov {t : Terms} {fullEntry : Str}
    {li : Nat} {o : Officer}
    (h : o ∈ (extractInlineOfficerCategoriesS t fullEntry li).1.1.all) :
    officerProvenance t o := by
  unfold extractInlineOfficerCategoriesS at h
  have hgc : ∀ (cat : Str) (ms : List Str) (off : OfficersByCat)
      (cats : List Str) (li3 : Nat),
      (∀ o2 ∈ off.all, officerProvenance t o2) →
      ∀ o2 ∈ (extractInlineOfficerCategoriesS.goContents t cat ms off cats
        li3).1.1.all, officerProvenance t o2 := by
    intro cat ms
    induction ms with
    | nil =>
      intro off cats li3 hoff o2 hm
      unfold extractInlineOfficerCategoriesS.goContents at hm
      exact hoff _ hm
    | cons content cs ih =>
      intro off cats li3 hoff o2 hm
      unfold extractInlineOfficerCategoriesS.goContents at hm
      by_cases h1 : (trimJs content).isEmpty = true
      · rw [if_pos h1] at hm
        exact ih _ _ _ hoff _ hm
      · rw [if_neg h1] at hm
        refine ih _ _ _ ?_ _ hm
        intro o3 ho3
        rcases mem_push_all ho3 with ho3 | ho3
        · exact hoff _ ho3
        · exact parseOfficersFromInlineContentS_prov ho3
  have hgk : ∀ (catsL : List Str) (off : OfficersByCat) (cats : List Str)
      (li3 : Nat),
      (∀ o2 ∈ off.all, officerProvenance t o2) →
      o ∈ (extractInlineOfficerCategoriesS.goCats t fullEntry catsL off
        cats li3).1.1.all →
      officerProvenance t o := by
    intro catsL
    induction catsL with
    | nil =>
      intro off cats li3 hoff hm
      unfold extractInlineOfficerCategoriesS.goCats at hm
      exact hoff _ hm
    | cons cat rest ih =>
      intro off cats li3 hoff hm
      unfold extractInlineOfficerCategoriesS.goCats at hm
      exact ih _ _ _ (hgc _ _ _ _ _ hoff) hm
  refine hgk _ _ _ _ ?_ h
  intro o2 ho2
  exact absurd ho2 (by simp [OfficersByCat.empty, OfficersByCat.all])

/-- Direct-pattern officers satisfy the provenance invariant. -/
theorem extractByDirectPatternsS_prov {t : Terms} {fullEntry : Str}
    {li : Nat} {o : Officer}
    (h : o ∈ (extractByDirectPatternsS t fullEntry li).1) :
    officerProvenance t o := by
  unfold extractByDirectPatternsS at h
  have hgo : ∀ (lines : List Str) (li3 : Nat),
      o ∈ (extractByDirectPatternsS.go t lines li3).1 →
      officerProvenance t o := by
    intro lines
    induction lines with
    | nil =>
      intro li3 hm
      simp [extractByDirectPatternsS.go] at hm
    | cons line ls ih =>
      intro li3 hm
      unfold extractByDirectPatternsS.go at hm
      by_cases hr : (registryTestS line li3).1 = true
      · rw [if_pos hr] at hm
        exact ih _ hm
      · rw [if_neg hr] at hm
        by_cases hcat : (findTopLevelCategory t line).isSome = true
        · rw [if_pos hcat] at hm
          exact ih _ hm
        · rw [if_neg hcat] at hm
          by_cases hbiz : isBusinessActivityDescription line = true
          · rw [if_pos hbiz] at hm
            exact ih _ hm
          · rw [if_neg hbiz] at hm
            cases hcolon : indexOfChar line ':' with
            | none =>
              rw [hcolon] at hm
              exact ih _ hm
            | some colonIndex =>
              rw [hcolon] at hm
              simp only at hm
              by_cases hc0 : (colonIndex == 0) = true
              · rw [if_pos hc0] at hm
                exact ih _ hm
              · rw [if_neg hc0] at hm
                cases hfind : findOfficerPosition t
                    (trimJs (line.take colonIndex)) with
                | none =>
                  rw [hfind] at hm
                  exact ih _ hm
                | some op =>
                  rw [hfind] at hm
                  simp only at hm
                  by_cases hbe : ((trimJs (line.drop
                      (colonIndex + 1))).isEmpty ||
                      isBusinessActivityDescription (trimJs (line.drop
                        (colonIndex + 1)))) = true
                  · rw [if_pos hbe] at hm
                    exact ih _ hm
                  · rw [if_neg hbe] at hm
                    simp only [List.mem_append] at hm
                    rcases hm with hm | hm
                    · obtain ⟨n, hn, rfl⟩ := List.mem_map.mp hm
                      exact ⟨Or.inl ⟨trimJs (line.take colonIndex),
                        by rw [hfind]⟩, mem_filterValidNamesS hn⟩
                    · exact ih _ hm
  exact hgo _ _ h

/-- Proximity officers satisfy the provenance invariant whenever the
accumulator does. -/
theorem extractByNameProximityS_prov {t : Terms} {fullEntry : Str}
    {off0 : OfficersByCat} {li : Nat} {o : Officer}
    (hoff0 : ∀ o2 ∈ off0.all, officerProvenance t o2)
    (h : o ∈ (extractByNameProximityS t fullEntry off0 li).1.all) :
    officerProvenance t o := by
  unfold extractByNameProximityS at h
  have hgm : ∀ (kw : Str), kw ∈ positionKeywords →
      ∀ (caps : List Str) (off : OfficersByCat) (li3 : Nat),
      (∀ o2 ∈ off.all, officerProvenance t o2) →
      ∀ o2 ∈ (extractByNameProximityS.goMatches t kw caps off li3).1.all,
        officerProvenance t o2 := by
    intro kw hkw caps
    induction caps with
    | nil =>
      intro off li3 hoff o2 hm
      unfold extractByNameProximityS.goMatches at hm
      exact hoff _ hm
    | cons cap cs ih =>
      intro off li3 hoff o2 hm
      unfold extractByNameProximityS.goMatches at hm
      by_cases hv : (isValidSpanishNameS t (cleanOfficerName cap)
          li3).1 = true
      · rw [if_pos hv] at hm
        by_cases hd : (off.all.any
            (fun o3 => o3.name == cleanOfficerName cap)) = true
        · rw [if_pos hd] at hm
          exact ih _ _ hoff _ hm
        · rw [if_neg hd] at hm
          refine ih _ _ ?_ _ hm
          intro o3 ho3
          rcases mem_push_all ho3 with ho3 | ho3
          · exact hoff _ ho3
          · rcases List.mem_singleton.mp ho3 with rfl
            refine ⟨?_, ⟨li3, hv⟩⟩
            cases hf : findOfficerPosition t kw with
            | none => exact Or.inr (Or.inr (by simp [hf, hkw]))
            | some p => exact Or.inl ⟨kw, by simp [hf]⟩
      · rw [if_neg hv] at hm
        exact ih _ _ hoff _ hm
  have hgk : ∀ (kws : List Str), (∀ k ∈ kws, k ∈ positionKeywords) →
      ∀ (off : OfficersByCat) (li3 : Nat),
      (∀ o2 ∈ off.all, officerProvenance t o2) →
      o ∈ (extractByNameProximityS.goKeywords t fullEntry kws off
        li3).1.all →
      officerProvenance t o := by
    intro kws
    induction kws with
    | nil =>
      intro hsub off li3 hoff hm
      unfold extractByNameProximityS.goKeywords at hm
      exact hoff _ hm
    | cons kw rest ih =>
      intro hsub off li3 hoff hm
      unfold extractByNameProximityS.goKeywords at hm
      refine ih (fun k hk => hsub k (List.mem_cons_of_mem _ hk)) _ _
        ?_ hm
      exact hgm kw (hsub kw (List.mem_cons_self _ _)) _ _ _ hoff
  exact hgk _ (fun k hk => hk) _ _ hoff0 h

/-- Section-pass officers satisfy the provenance invariant. -/
theorem sectionPassS_prov {t : Terms} {sections cats0 : List Str}
    {li : Nat} {o : Officer}
    (h : o ∈ (sectionPassS t sections cats0 li).1.1.all) :
    officerProvenance t o := by
  unfold sectionPassS at h
  have hgo : ∀ (fuel i : Nat) (off : OfficersByCat) (cats : List Str)
      (li3 : Nat),
      (∀ o2 ∈ off.all, officerProvenance t o2) →
      o ∈ (sectionPassS.go t sections fuel i off cats li3).1.1.all →
      officerProvenance t o := by
    intro fuel
    induction fuel with
    | zero =>
      intro i off cats li3 hoff hm
      unfold sectionPassS.go at hm
      exact hoff _ hm
    | succ fuel ih =>
      intro i off cats li3 hoff hm
      unfold sectionPassS.go at hm
      cases hdrop : sections.drop i with
      | nil =>
        rw [hdrop] at hm
        exact hoff _ hm
      | cons sec rest =>
        rw [hdrop] at hm
        simp only at hm
        cases hcat : findTopLevelCategoryExact t sec with
        | none =>
          rw [hcat] at hm
          simp only at hm
          exact ih _ _ _ _ hoff hm
        | some category =>
          rw [hcat] at hm
          simp only at hm
          by_cases hc : cats.contains category = true
          · rw [if_pos hc] at hm
            exact ih _ _ _ _ hoff hm
          · rw [if_neg hc] at hm
            by_cases h4 : ([str "Nombramientos", str "Reelecciones",
                str "Revocaciones", str "Ceses/Dimisiones"].contains
                category) = true
            · rw [if_pos h4] at hm
              refine ih _ _ _ _ ?_ hm
              intro o2 ho2
              rcases mem_push_all ho2 with ho2 | ho2
              · exact hoff _ ho2
              · have hp := parseOfficersFromSectionsS_prov ho2
                exact ⟨Or.inl hp.1, hp.2⟩
            · rw [if_neg h4] at hm
              by_cases h5 : (category ==
                  str "Declaración de unipersonalidad") = true
              · rw [if_pos h5] at hm
                refine ih _ _ _ _ ?_ hm
                intro o2 ho2
                rcases mem_push_all ho2 with ho2 | ho2
                · exact hoff _ ho2
                · have hp := parseSocioUnicoFromSectionsS_prov ho2
                  exact ⟨Or.inr (Or.inl hp.1), hp.2⟩
              · rw [if_neg h5] at hm
                by_cases h6 : (category == str "Constitución") = true
                · rw [if_pos h6] at hm
                  refine ih _ _ _ _ ?_ hm
                  intro o2 ho2
                  rcases mem_push_all ho2 with ho2 | ho2
                  · exact hoff _ ho2
                  · have hp := parseOfficersFromSectionsS_prov ho2
                    exact ⟨Or.inl hp.1, hp.2⟩
                · rw [if_neg h6] at hm
                  exact ih _ _ _ _ hoff hm
  refine hgo _ _ _ _ _ ?_ h
  intro o2 ho2
  exact absurd ho2 (by simp [OfficersByCat.empty, OfficersByCat.all])

/-- Category-strategy officers satisfy the provenance invariant. -/
theorem extractByCategoriesS_prov {t : Terms} {fullEntry : Str} {li : Nat}
    {o : Officer}
    (h : o ∈ (extractByCategoriesS t fullEntry li).1.1.all) :
    officerProvenance t o := by
  unfold extractByCategoriesS at h
  have h2 := mem_deduplicateOfficers h
  have h3 : o ∈ (extractInlineOfficerCategoriesS t fullEntry
        li).1.1.all ∨
      o ∈ (sectionPassS t (smartSplitBormeEntry fullEntry)
        (extractInlineOfficerCategoriesS t fullEntry li).1.2
        (extractInlineOfficerCategoriesS t fullEntry li).2).1.1.all := by
    simp only [OfficersByCat.all, List.mem_append] at h2 ⊢
    tauto
  rcases h3 with h3 | h3
  · exact extractInlineOfficerCategoriesS_prov h3
  · exact sectionPassS_prov h3

/-- Every officer produced by the full extraction pipeline satisfies the
provenance invariant. -/
theorem extractOfficersEnhancedS_prov {t : Terms} {fullEntry : Str}
    {li : Nat} {o : Officer}
    (h : o ∈ (extractOfficersEnhancedS t fullEntry li).1.1.all) :
    officerProvenance t o := by
  unfold extractOfficersEnhancedS at h
  by_cases h1 : (getTotalOfficers (extractByCategoriesS t fullEntry
      li).1.1 == 0) = true
  · rw [if_pos h1] at h
    by_cases h2 : (getTotalOfficers ((extractByCategoriesS t fullEntry
        li).1.1.push .nom (extractByDirectPatternsS t fullEntry
        (extractByCategoriesS t fullEntry li).2).1) == 0) = true
    · rw [if_pos h2] at h
      refine extractByNameProximityS_prov ?_ h
      intro o2 ho2
      rcases mem_push_all ho2 with ho2 | ho2
      · exact extractByCategoriesS_prov ho2
      · exact extractByDirectPatternsS_prov ho2
    · rw [if_neg h2] at h
      rcases mem_push_all h with h | h
      · exact extractByCategoriesS_prov h
      · exact extractByDirectPatternsS_prov h
  · rw [if_neg h1] at h
    exact extractByCategoriesS_prov h

/-- C6: counterexample to the claim that no officer event is ever stored
with an unresolved position. On the entry `GERENT.JUAN PEREZ` the
proximity strategy stores the raw keyword `GERENT.` as the position even
though the resolution cascade rejects that very string
(`findOfficerPosition(keyword) || keyword` falls back to the keyword
instead of dropping the candidate). -/
theorem c6_counterexample :
    ∃ o ∈ (extractOfficersEnhancedS termsJson
      (str "GERENT.JUAN PEREZ") 0).1.1.all,
      o.position = str "GERENT." ∧
      findOfficerPosition termsJson o.position = none := by decide

/-- C6 (amended): every officer emitted by the extraction pipeline
carries either a position in the image of the resolution cascade, or the
literal `Socio único` of the unipersonalidad strategy, or a raw
proximity keyword (the `findOfficerPosition(keyword) || keyword`
fallback); and a name that passed Spanish-name validation. -/
theorem c6_position_resolution_amended {t : Terms} {fullEntry : Str}
    {li : Nat} {o : Officer}
    (h : o ∈ (extractOfficersEnhancedS t fullEntry li).1.1.all) :
    ((∃ c, findOfficerPosition t c = some o.position) ∨
      o.position = str "Socio único" ∨ o.position ∈ positionKeywords) ∧
    (∃ li2, (isValidSpanishNameS t o.name li2).1 = true) :=
  extractOfficersEnhancedS_prov h

/-- The amended C6 invariant instantiated on a concrete entry. -/
theorem c6_position_resolution_amended_witness :
    ((∃ c, findOfficerPosition termsJson c =
        some (Officer.mk (str "JUAN PEREZ GARCIA")
          (str "Administrador Único")
          (some (str "Administrador Único: JUAN PEREZ GARCIA"))
          (str "Nombramientos")).position) ∨
      (Officer.mk (str "JUAN PEREZ GARCIA") (str "Administrador Único")
        (some (str "Administrador Único: JUAN PEREZ GARCIA"))
        (str "Nombramientos")).position = str "Socio único" ∨
      (Officer.mk (str "JUAN PEREZ GARCIA") (str "Administrador Único")
        (some (str "Administrador Único: JUAN PEREZ GARCIA"))
        (str "Nombramientos")).position ∈ positionKeywords) ∧
    (∃ li2, (isValidSpanishNameS termsJson
      (Officer.mk (str "JUAN PEREZ GARCIA") (str "Administrador Único")
        (some (str "Administrador Único: JUAN PEREZ GARCIA"))
        (str "Nombramientos")).name li2).1 = true) :=
  @c6_position_resolution_amended termsJson
    (str "Nombramientos. Administrador único: JUAN PEREZ GARCIA.") 0
    (Officer.mk (str "JUAN PEREZ GARCIA") (str "Administrador Único")
      (some (str "Administrador Único: JUAN PEREZ GARCIA"))
      (str "Nombramientos"))
    (by decide)

/-- A name accepted by the source validator satisfies the spec's name
shape: at least two tokens, a leading Spanish capital, no digit. -/
theorem valid_name_spec {t : Terms} {s : Str} {li : Nat}
    (h : (isValidSpanishNameS t s li).1 = true) :
    specNameOk s = true := by
  unfold isValidSpanishNameS at h
  by_cases h1 : (s.isEmpty || decide (s.length < 3)) = true
  · rw [if_pos h1] at h
    exact absurd h (by simp)
  · rw [if_neg h1] at h
    by_cases h2 : ((splitWsPlus s).filter
        (fun w => decide (w.length > 0))).length < 2
    · rw [if_pos h2] at h
      exact absurd h (by simp)
    · rw [if_neg h2] at h
      by_cases h3 : s.any isBadNameChar = true
      · rw [if_pos h3] at h
        exact absurd h (by simp)
      · rw [if_neg h3] at h
        by_cases h4 : s.length > 50
        · rw [if_pos h4] at h
          exact absurd h (by simp)
        · rw [if_neg h4] at h
          by_cases h5 : (registryTestS s li).1 = true
          · rw [if_pos h5] at h
            exact absurd h (by simp)
          · rw [if_neg h5] at h
            by_cases h6 : (t.officersPositions.any
                (fun pos => upperStr pos == upperStr s)) = true
            · rw [if_pos h6] at h
              exact absurd h (by simp)
            · rw [if_neg h6] at h
              by_cases h7 : isBusinessActivityDescription s = true
              · rw [if_pos h7] at h
                exact absurd h (by simp)
              · rw [if_neg h7] at h
                by_cases h8 : (nameBusinessWords.any
                    (fun w => containsStr (lowerStr s) w)) = true
                · rw [if_pos h8] at h
                  exact absurd h (by simp)
                · rw [if_neg h8] at h
                  by_cases h9 : (!(s.head?.elim false isCapSpanish)) =
                      true
                  · rw [if_pos h9] at h
                    exact absurd h (by simp)
                  · have hcnt : ((splitWsPlus s).filter
                        (fun w => !w.isEmpty)).length ≥ 2 := by
                      have he : ((splitWsPlus s).filter
                          (fun w => !w.isEmpty)) =
                          ((splitWsPlus s).filter
                            (fun w => decide (w.length > 0))) := by
                        apply List.filter_congr
                        intro w hw
                        cases w <;> simp
                      rw [he]
                      omega
                    have hcap : s.head?.elim false isCapSpanish =
                        true := by
                      simpa using h9
                    have hdig : s.any isDigitChar = false := by
                      by_contra hc
                      rw [Bool.not_eq_false] at hc
                      obtain ⟨c, hcmem, hcd⟩ := List.any_eq_true.mp hc
                      exact h3 (List.any_eq_true.mpr ⟨c, hcmem,
                        by simp [isBadNameChar, hcd]⟩)
                    simp [specNameOk, hcnt, hcap, hdig]

/-- Officers surfaced by `parseBormeEntry` satisfy the provenance
invariant. -/
theorem parseBormeEntryS_officers_prov {t : Terms} {fe : Option Str}
    {li : Nat} {o : Officer}
    (h : o ∈ (bormeOfficersObj
      (parseBormeEntryS t fe li).1.officers).all) :
    officerProvenance t o := by
  cases fe with
  | none =>
    exact absurd h (by simp [parseBormeEntryS, bormeOfficersObj,
      OfficersByCat.empty, OfficersByCat.all])
  | some e =>
    unfold parseBormeEntryS at h
    simp only at h
    by_cases he : e.isEmpty = true
    · rw [if_pos he] at h
      exact absurd h (by simp [bormeOfficersObj, OfficersByCat.empty,
        OfficersByCat.all])
    · rw [if_neg he] at h
      exact extractOfficersEnhancedS_prov h

/-- With no `parsed_details` record, every officer of the parse result
comes from the extraction pipeline and satisfies the provenance
invariant. -/
theorem parseSpanishCompanyDataS_prov {t : Terms} {raw : RawData}
    {li : Nat} {o : Officer} (hpd : raw.parsed_details = none)
    (h : o ∈ ((parseSpanishCompanyDataS t raw li).1.officers).all) :
    officerProvenance t o := by
  have hstep2 : pscStep2 raw (pscStep1 t raw li) = pscStep1 t raw li := by
    unfold pscStep2
    rw [hpd]
  unfold parseSpanishCompanyDataS at h
  rw [hstep2] at h
  by_cases hc : (!(pscText raw).isEmpty &&
      (getTotalOfficers (pscStep1 t raw li).1.officers == 0)) = true
  · rw [if_pos hc] at h
    exact parseBormeEntryS_officers_prov h
  · rw [if_neg hc] at h
    unfold pscStep1 at h
    by_cases hf : truthyStr raw.full_entry = true
    · rw [if_pos hf] at h
      exact parseBormeEntryS_officers_prov h
    · rw [if_neg hf] at h
      exact absurd h (by simp [OfficersByCat.empty, OfficersByCat.all])

/-- C8: counterexample to the claim that the name-validity invariant
also holds on the `parsed_details` merge path. An administrators entry
`x` is copied into an appointment officer without any validation: one
token, lowercase, so the spec's name shape is violated. -/
theorem c8_counterexample :
    ∃ o ∈ ((parseSpanishCompanyDataS termsJson
      ⟨none, none, none, none,
        some ⟨none, none, none, none, some [str "x"]⟩⟩ 0).1.officers).all,
      specNameOk o.name = false := by decide

/-- C8 (amended): when no `parsed_details` record is supplied — so the
unvalidated merge path is not taken — every officer name emitted by the
parse has at least two whitespace-separated tokens, starts with a
Spanish capital letter, and contains no digit. -/
theorem c8_name_validity_amended {t : Terms} {raw : RawData} {li : Nat}
    {o : Officer} (hpd : raw.parsed_details = none)
    (h : o ∈ ((parseSpanishCompanyDataS t raw li).1.officers).all) :
    specNameOk o.name = true :=
  valid_name_spec (parseSpanishCompanyDataS_prov hpd h).2.choose_spec

/-- The amended C8 invariant instantiated on a concrete entry. -/
theorem c8_name_validity_amended_witness :
    specNameOk (Officer.mk (str "MARIA LOPEZ RUIZ")
      (str "Administrador Único")
      (some (str "Administrador Único: MARIA LOPEZ RUIZ"))
      (str "Nombramientos")).name = true :=
  @c8_name_validity_amended termsJson
    ⟨some (str "Nombramientos. Administrador único: MARIA LOPEZ RUIZ."),
      none, none, none, none⟩ 0
    (Officer.mk (str "MARIA LOPEZ RUIZ") (str "Administrador Único")
      (some (str "Administrador Único: MARIA LOPEZ RUIZ"))
      (str "Nombramientos"))
    rfl (by decide)

/-- `contains` agrees with membership. -/
theorem contains_mem {l : List Str} {x : Str} :
    l.contains x = true ↔ x ∈ l := by
  simp [List.contains, List.elem_iff]

/-- Membership in the first-occurrence set builder. -/
theorem mem_jsSetGo {l seen : List Str} {x : Str} :
    x ∈ jsSetGo seen l ↔ x ∈ l ∧ x ∉ seen := by
  induction l generalizing seen with
  | nil => simp [jsSetGo]
  | cons y ys ih =>
    unfold jsSetGo
    by_cases hy : seen.contains y = true
    · rw [if_pos hy, ih]
      rw [contains_mem] at hy
      simp only [List.mem_cons]
      constructor
      · rintro ⟨hm, hs⟩
        exact ⟨Or.inr hm, hs⟩
      · rintro ⟨rfl | hm, hs⟩
        · exact absurd hy hs
        · exact ⟨hm, hs⟩
    · rw [if_neg hy]
      rw [contains_mem] at hy
      simp only [List.mem_cons, ih]
      constructor
      · rintro (rfl | ⟨hm, hs⟩)
        · exact ⟨Or.inl rfl, hy⟩
        · simp only [List.mem_append, List.mem_singleton] at hs
          push_neg at hs
          exact ⟨Or.inr hm, hs.1⟩
      · rintro ⟨rfl | hm, hs⟩
        · exact Or.inl rfl
        · by_cases hxy : x = y
          · exact Or.inl hxy
          · refine Or.inr ⟨hm, ?_⟩
            simp only [List.mem_append, List.mem_singleton]
            push_neg
            exact ⟨hs, hxy⟩

/-- The set builder yields distinct elements. -/
theorem jsSetGo_nodup (seen l : List Str) : (jsSetGo seen l).Nodup := by
  induction l generalizing seen with
  | nil => simp [jsSetGo]
  | cons y ys ih =>
    unfold jsSetGo
    by_cases hy : seen.contains y = true
    · rw [if_pos hy]
      exact ih _
    · rw [if_neg hy]
      refine List.nodup_cons.mpr ⟨?_, ih _⟩
      intro hmem
      rcases mem_jsSetGo.mp hmem with ⟨-, hs⟩
      exact hs (by simp)

/-- `new Set(list)` membership. -/
theorem mem_jsSetList {l : List Str} {x : Str} :
    x ∈ jsSetList l ↔ x ∈ l := by
  unfold jsSetList
  rw [mem_jsSetGo]
  simp

/-- `new Set(list)` yields distinct elements. -/
theorem jsSetList_nodup (l : List Str) : (jsSetList l).Nodup :=
  jsSetGo_nodup [] l

/-- `new Set(list)` is a permutation of `dedup`. -/
theorem jsSetList_perm_dedup (l : List Str) :
    (jsSetList l).Perm l.dedup := by
  refine (List.perm_ext_iff_of_nodup (jsSetList_nodup l)
    (List.nodup_dedup l)).mpr ?_
  intro a
  rw [List.mem_dedup]
  exact mem_jsSetList

/-- The intersection size the source computes equals the spec's
intersection count. -/
theorem interCount_eq (n1 n2 : Str) :
    ((jsSetList (extractNameParts n1)).filter
      (fun x => (jsSetList (extractNameParts n2)).contains x)).length =
    interCountSpec n1 n2 := by
  unfold interCountSpec
  have h1 : ((jsSetList (extractNameParts n1)).filter
      (fun x => (jsSetList (extractNameParts n2)).contains x)) =
      ((jsSetList (extractNameParts n1)).filter
        (fun x => (extractNameParts n2).contains x)) := by
    apply List.filter_congr
    intro x hx
    rw [Bool.eq_iff_iff, contains_mem, contains_mem, mem_jsSetList]
  rw [h1]
  exact (List.Perm.filter _
    (jsSetList_perm_dedup (extractNameParts n1))).length_eq

/-- The union size the source computes equals the spec's union count. -/
theorem unionCount_eq (n1 n2 : Str) :
    (jsSetList (jsSetList (extractNameParts n1) ++
      jsSetList (extractNameParts n2))).length =
    unionCountSpec n1 n2 := by
  unfold unionCountSpec
  refine List.Perm.length_eq ?_
  refine (List.perm_ext_iff_of_nodup (jsSetList_nodup _)
    (List.nodup_dedup _)).mpr ?_
  intro a
  rw [List.mem_dedup]
  simp only [mem_jsSetList, List.mem_append]

/-- The similarity decision as the source implements it, in the spec's
vocabulary: nonempty inputs, and exact normalised equality or — only
when both names have at least two significant parts — the surname
override, a Jaccard similarity of at least one half, or at least two
shared parts. -/
def similarAmendedSpec (n1 n2 : Str) : Prop :=
  (n1.isEmpty = false ∧ n2.isEmpty = false) ∧
  (normalizeSpanishName n1 = normalizeSpanishName n2 ∨
    ((extractNameParts n1).length ≥ 2 ∧
     (extractNameParts n2).length ≥ 2 ∧
     (surnameOverrideSpec n1 n2 = true ∨
      2 * interCountSpec n1 n2 ≥ unionCountSpec n1 n2 ∨
      interCountSpec n1 n2 ≥ 2)))

/-- C9: counterexample to the claimed decision rule. The names `JUAN`
and `JUAN AB` have Jaccard similarity 1/2, so the claimed rule matches
them; the source guards on both names having at least two significant
parts and falls back to exact normalised equality, so it does not. -/
theorem c9_counterexample :
    similarClaimed (str "JUAN") (str "JUAN AB") = true ∧
    areNamesSimilar (str "JUAN") (str "JUAN AB") = false := by decide

/-- C9 (amended): the source's similarity decision equals the claimed
rule restricted by the two-significant-parts guard (names under the
guard match only by exact normalised equality); the GOSLIN pair from
the spec is indeed judged the same person. -/
theorem c9_similarity_amended :
    (∀ n1 n2 : Str,
      (areNamesSimilar n1 n2 = true ↔ similarAmendedSpec n1 n2)) ∧
    areNamesSimilar (str "GOSLIN COX BRUCE RIDGWAY")
      (str "GOSLIN BRUCE RIDGWAY") = true := by
  constructor
  · intro n1 n2
    unfold areNamesSimilar similarAmendedSpec
    by_cases he : (n1.isEmpty || n2.isEmpty) = true
    · rw [if_pos he]
      simp only [Bool.or_eq_true] at he
      constructor
      · intro hf
        exact absurd hf (by simp)
      · rintro ⟨⟨h1, h2⟩, -⟩
        rcases he with he | he
        · rw [h1] at he
          exact absurd he (by simp)
        · rw [h2] at he
          exact absurd he (by simp)
    · rw [if_neg he]
      simp only [Bool.or_eq_true, not_or] at he
      obtain ⟨he1, he2⟩ := he
      rw [Bool.not_eq_true] at he1 he2
      by_cases hn : (normalizeSpanishName n1 ==
          normalizeSpanishName n2) = true
      · rw [if_pos hn]
        rw [beq_iff_eq] at hn
        constructor
        · intro _
          exact ⟨⟨he1, he2⟩, Or.inl hn⟩
        · intro _
          rfl
      · rw [if_neg hn]
        rw [beq_iff_eq] at hn
        by_cases hp : (decide ((extractNameParts n1).length < 2) ||
            decide ((extractNameParts n2).length < 2)) = true
        · rw [if_pos hp]
          simp only [Bool.or_eq_true, decide_eq_true_eq] at hp
          constructor
          · intro hf
            rw [beq_iff_eq] at hf
            exact absurd hf hn
          · rintro ⟨-, hor⟩
            rcases hor with hor | ⟨hl1, hl2, -⟩
            · exact absurd hor hn
            · rcases hp with hp | hp <;> omega
        · rw [if_neg hp]
          simp only [Bool.or_eq_true, decide_eq_true_eq, not_or] at hp
          obtain ⟨hp1, hp2⟩ := hp
          by_cases hov : ((decide ((extractNameParts n1).length ≥ 2) &&
              decide ((extractNameParts n2).length ≥ 2) &&
              ((extractNameParts n1).getLast? ==
                (extractNameParts n2).getLast?)) &&
              (decide ((extractNameParts n1).length ≥ 3) &&
              decide ((extractNameParts n2).length ≥ 3) &&
              (secondLast? (extractNameParts n1) ==
                secondLast? (extractNameParts n2)))) = true
          · rw [if_pos hov]
            constructor
            · intro _
              refine ⟨⟨he1, he2⟩, Or.inr ⟨by omega, by omega, Or.inl ?_⟩⟩
              unfold surnameOverrideSpec
              simp only [Bool.and_eq_true] at hov ⊢
              tauto
            · intro _
              rfl
          · rw [if_neg hov]
            rw [Bool.or_eq_true, decide_eq_true_eq, decide_eq_true_eq,
              interCount_eq, unionCount_eq]
            constructor
            · intro hor
              exact ⟨⟨he1, he2⟩,
                Or.inr ⟨by omega, by omega, Or.inr hor⟩⟩
            · rintro ⟨-, hor⟩
              rcases hor with hor | ⟨-, -, hov2 | hor⟩
              · exact absurd hor hn
              · refine absurd ?_ hov
                unfold surnameOverrideSpec at hov2
                simp only [Bool.and_eq_true] at hov2 ⊢
                tauto
              · exact hor
  · decide

end Borme
